import Mathlib

/-!
Verification of the AudioUnitSDK buffer management, parameter automation and
thread-safe list components, shallowly embedded from the C++ sources
(`AUBuffer.cpp`, `AUBuffer.h`, `AUBase.cpp`, `AUScopeElement.cpp`,
`AUThreadSafeList.h`).  Machine integers (`UInt32`, `SInt32`) are modelled as
`Nat`/`Int` with explicit casts and `% 2^32` where the source wraps.
-/

namespace AUSDK

/-- `2^32`, the modulus of `UInt32` arithmetic. -/
def u32Mod : Nat := 4294967296

/-- `2^31`, the first value not representable as a nonnegative `SInt32`. -/
def i32Half : Nat := 2147483648

/-- Reinterpretation of a `UInt32` value (a `Nat < 2^32`) as an `SInt32`,
as performed by `static_cast<SInt32>` in the source. -/
def toSInt32 (u : Nat) : Int :=
  if u < i32Half then (u : Int) else (u : Int) - (u32Mod : Int)

/-- Reinterpretation of an `SInt32` value as a `UInt32`
(`static_cast<UInt32>` in the source). -/
def toUInt32 (i : Int) : Nat := (i % (u32Mod : Int)).toNat

theorem toSInt32_of_lt {u : Nat} (h : u < i32Half) : toSInt32 u = (u : Int) := by
  simp [toSInt32, h]

theorem toUInt32_of_nonneg_lt {i : Int} (h0 : 0 ≤ i) (h : i < (u32Mod : Int)) :
    toUInt32 i = i.toNat := by
  unfold toUInt32
  rw [Int.emod_eq_of_lt h0 h]

/-! ## AUBuffer.cpp: buffer allocation and preparation -/

/-- `RoundUpToMultipleOfPowerOf2(x, 16)` from `AUBuffer.cpp`, computed in
32-bit arithmetic: `(x + 15) & ~15` with wraparound. -/
def roundUpTo16 (x : Nat) : Nat := ((x + 15) % u32Mod) / 16 * 16

/-- Errors thrown by the allocation path of `AUBuffer.cpp`
(`std::out_of_range` for too many buffers, `std::bad_alloc` from
`SafeMultiplyAddUInt32`). -/
inductive AllocError where
  | outOfRange
  | badAlloc
deriving DecidableEq, Repr

/-- `SafeMultiplyAddUInt32(a, b, c)` from `AUBuffer.cpp`: returns `c` if `a`
or `b` is zero, throws `bad_alloc` when `a * b + c` would overflow `UInt32`,
otherwise returns `a * b + c`. -/
def safeMultiplyAddUInt32 (a b c : Nat) : Except AllocError Nat :=
  if a = 0 ∨ b = 0 then .ok c
  else if a > (u32Mod - 1 - c) / b then .error .badAlloc
  else .ok (a * b + c)

/-- One entry of an `AudioBufferList` (`AudioBuffer`): channel count, byte
size, and data pointer.  A pointer is modelled as `none` (null) or
`some off`, an offset into the owning region's payload. -/
structure AudioBuffer where
  mNumberChannels : Nat
  mDataByteSize : Nat
  mData : Option Nat
deriving DecidableEq, Repr

/-- The `AllocatedBuffer` record created by `BufferAllocator::Allocate`:
capacity fields, the payload region (modelled as its byte contents), and the
embedded `AudioBufferList` (its entries). -/
structure AllocatedBuffer where
  mMaximumNumberBuffers : Nat
  mMaximumBytesPerBuffer : Nat
  mBufferDataSize : Nat
  /-- contents of the malloc'ed payload region (empty when `bufferDataSize`
  is zero, in which case the source keeps a null `mBufferData`). -/
  mBufferData : List Nat
  /-- `mAudioBufferList.mNumberBuffers`. -/
  mNumberBuffers : Nat
  /-- `mAudioBufferList.mBuffers` (the source leaves these entries
  default-initialized at allocation time). -/
  mBuffers : List AudioBuffer
deriving DecidableEq, Repr

/-- `kMaxBufferListSize / sizeof(AudioBuffer)` = `65536 / 16`: the largest
accepted `numberBuffers` in `BufferAllocator::Allocate`. -/
def maxNumberBuffers : Nat := 65536 / 16

/-- `BufferAllocator::Allocate(numberBuffers, maxBytesPerBuffer, flags)` from
`AUBuffer.cpp`: rejects more than `maxNumberBuffers` buffers, rounds the
per-buffer byte capacity up to a multiple of 16 (in 32-bit arithmetic),
computes the payload size with an overflow check, and returns a record with
a zero-filled payload region. -/
def bufferAllocate (numberBuffers maxBytesPerBuffer : Nat) :
    Except AllocError AllocatedBuffer :=
  if numberBuffers > maxNumberBuffers then .error .outOfRange
  else
    match safeMultiplyAddUInt32 numberBuffers (roundUpTo16 maxBytesPerBuffer) 0 with
    | .error e => .error e
    | .ok bufferDataSize =>
        .ok { mMaximumNumberBuffers := numberBuffers
              mMaximumBytesPerBuffer := roundUpTo16 maxBytesPerBuffer
              mBufferDataSize := bufferDataSize
              mBufferData := List.replicate bufferDataSize 0
              mNumberBuffers := numberBuffers
              mBuffers := List.replicate numberBuffers
                ⟨0, 0, none⟩ }

/-- `AllocatedBuffer::PrepareOrError(channelsPerBuffer, bytesPerBuffer)` from
`AUBuffer.cpp`: checks the buffer count and byte-size capacity, then binds
every entry of the embedded `AudioBufferList` to the region at stride
`mMaximumBytesPerBuffer`, and finally checks that the last pointer did not
run past the end of the region.  Errors are `Unexpected(-1)`.  The result is
the returned value together with the (possibly mutated) record, since the
source mutates `mAudioBufferList` in place before the final capacity check. -/
def prepareOrError (ab : AllocatedBuffer) (channelsPerBuffer bytesPerBuffer : Nat) :
    Except Int Unit × AllocatedBuffer :=
  if ab.mNumberBuffers > ab.mMaximumNumberBuffers then (.error (-1), ab)
  else if bytesPerBuffer > ab.mMaximumBytesPerBuffer then (.error (-1), ab)
  else
    let newBufs := (List.range ab.mNumberBuffers).map fun i =>
      AudioBuffer.mk channelsPerBuffer bytesPerBuffer
        (if ab.mBufferData.length = 0 then none else some (i * ab.mMaximumBytesPerBuffer))
    let ab' := { ab with mBuffers := newBufs }
    if ab.mNumberBuffers * ab.mMaximumBytesPerBuffer > ab.mBufferDataSize then
      (.error (-1), ab')
    else (.ok (), ab')

/-- Binding state of an `AUBufferList` (`EPtrState` in `AUBuffer.h`). -/
inductive EPtrState where
  | Invalid
  | ToMyMemory
  | ToExternalMemory
deriving DecidableEq, Repr

/-- The fields of `AudioStreamBasicDescription` consulted by the buffer
manager, plus the interleaving flag that `ASBD::IsInterleaved` inspects. -/
structure StreamFormat where
  mChannelsPerFrame : Nat
  mBytesPerFrame : Nat
  isInterleaved : Bool
deriving DecidableEq, Repr

/-- Number of channel streams (`1` when interleaved, `mChannelsPerFrame`
otherwise), following the branches of `AUBufferList::PrepareBufferOrError`. -/
def numberChannelStreams (fmt : StreamFormat) : Nat :=
  if fmt.isInterleaved then 1 else fmt.mChannelsPerFrame

/-- `kAudioUnitErr_TooManyFramesToProcess`. -/
def kAudioUnitErr_TooManyFramesToProcess : Int := -10874
/-- `kAudioUnitErr_FormatNotSupported`. -/
def kAudioUnitErr_FormatNotSupported : Int := -10868
/-- `kAudioUnitErr_InvalidParameter`. -/
def kAudioUnitErr_InvalidParameter : Int := -10878

/-- The state of an `AUBufferList` (`AUBuffer.h`): the binding state, the
owned `AllocatedBuffer`, and the allocated capacity bookkeeping. -/
structure AUBufferList where
  mPtrState : EPtrState
  mBuffers : AllocatedBuffer
  mAllocatedStreams : Nat
  mAllocatedFrames : Nat
deriving DecidableEq, Repr

/-- `AUBufferList::PrepareBufferOrError(format, nFrames)` from
`AUBuffer.cpp`: checks the frame capacity, derives the stream shape from the
format, checks the stream capacity, delegates to
`AllocatedBuffer::PrepareOrError` with `nFrames * format.mBytesPerFrame`
bytes (a `UInt32` product, hence reduced `% 2^32`), and only on success sets
`mPtrState := ToMyMemory`. -/
def prepareBufferOrError (bl : AUBufferList) (fmt : StreamFormat) (nFrames : Nat) :
    Except Int Unit × AUBufferList :=
  if nFrames > bl.mAllocatedFrames then
    (.error kAudioUnitErr_TooManyFramesToProcess, bl)
  else if numberChannelStreams fmt > bl.mAllocatedStreams then
    (.error kAudioUnitErr_FormatNotSupported, bl)
  else
    match prepareOrError bl.mBuffers
      (if fmt.isInterleaved then fmt.mChannelsPerFrame else 1)
      (nFrames * fmt.mBytesPerFrame % u32Mod) with
    | (.error e, ab2) => (.error e, { bl with mBuffers := ab2 })
    | (.ok _, ab2) => (.ok (), { bl with mBuffers := ab2, mPtrState := .ToMyMemory })

/-! ## AUScopeElement.cpp: parameter storage (`AUElement`, `flat_map`) -/

/-- `AudioUnitParameterValue` is a 32-bit float used only as an opaque stored
value by the code under verification; it is modelled by `ℚ` (no arithmetic
is ever performed on it). -/
abbrev AUParameterValue := ℚ

/-- `flat_map::find` from `AUScopeElement.h`: `lower_bound` on the sorted
vector (first entry whose key is `≥ k`), then a key-equality check. -/
def flatMapFind (l : List (Nat × AUParameterValue)) (k : Nat) : Option AUParameterValue :=
  match l with
  | [] => none
  | (k', v') :: rest =>
      if k' < k then flatMapFind rest k
      else if k' = k then some v' else none

/-- `flat_map::ItemProxy::operator=` from `AUScopeElement.h`: `lower_bound`,
assign in place when the key is present, otherwise insert at the lower
bound (keeping the vector sorted). -/
def flatMapSet (l : List (Nat × AUParameterValue)) (k : Nat) (v : AUParameterValue) :
    List (Nat × AUParameterValue) :=
  match l with
  | [] => [(k, v)]
  | (k', v') :: rest =>
      if k' < k then (k', v') :: flatMapSet rest k v
      else if k' = k then (k, v) :: rest
      else (k, v) :: (k', v') :: rest

/-- The parameter-holding state of one `AUElement`
(`AUScopeElement.h`/`AUScopeElement.cpp`): either a dense vector
(`mUseIndexedParameters`) or a sorted `flat_map`. -/
structure AUElementState where
  mUseIndexedParameters : Bool
  mIndexedParameters : List AUParameterValue
  mParameters : List (Nat × AUParameterValue)
deriving DecidableEq, Repr

/-- `AUElement::SetParameter(paramID, inValue, okWhenInitialized)` from
`AUScopeElement.cpp`.  `initialized` is `mAudioUnit.IsInitialized()`.
Indexed mode throws `kAudioUnitErr_InvalidParameter` for an out-of-range id
(modelled as `Except.error`); in sparse mode a write to an unknown id while
initialized without `okWhenInitialized` is silently dropped (logged, not
thrown), otherwise a new entry is inserted; a known id is stored in place. -/
def setParameter (initialized : Bool) (el : AUElementState) (paramID : Nat)
    (v : AUParameterValue) (okWhenInitialized : Bool) : Except Int AUElementState :=
  if el.mUseIndexedParameters then
    if paramID ≥ el.mIndexedParameters.length then .error kAudioUnitErr_InvalidParameter
    else .ok { el with mIndexedParameters := el.mIndexedParameters.set paramID v }
  else
    match flatMapFind el.mParameters paramID with
    | none =>
        if initialized ∧ ¬okWhenInitialized then .ok el
        else .ok { el with mParameters := flatMapSet el.mParameters paramID v }
    | some _ => .ok { el with mParameters := flatMapSet el.mParameters paramID v }

/-! ## AUBase.cpp: scheduled parameter events and `ProcessForScheduledParams` -/

/-- The `immediate` member of `AudioUnitParameterEvent::eventValues`:
`bufferOffset` is a `UInt32`. -/
structure AUImmediateParam where
  value : AUParameterValue
  bufferOffset : Nat
deriving DecidableEq, Repr

/-- The `ramp` member of `AudioUnitParameterEvent::eventValues`:
`startBufferOffset` is a signed `SInt32`, `durationInFrames` a `UInt32`. -/
structure AURampParam where
  startBufferOffset : Int
  durationInFrames : Nat
  startValue : AUParameterValue
  endValue : AUParameterValue
deriving DecidableEq, Repr

/-- The `eventType`/`eventValues` tagged union of
`AudioUnitParameterEvent`. -/
inductive AUEventValues where
  | immediate (i : AUImmediateParam)
  | ramp (r : AURampParam)
deriving DecidableEq, Repr

/-- `AudioUnitParameterEvent`: target scope/element/parameter plus the
tagged value union. -/
structure AUParameterEvent where
  scope : Nat
  element : Nat
  parameter : Nat
  eventValues : AUEventValues
deriving DecidableEq, Repr

/-- The `bufferOffset` helper of `ParameterEventListSortPredicate` in
`AUBase.cpp`: an immediate event's `UInt32` offset reinterpreted as
`SInt32`, or a ramp's (signed) start offset. -/
def eventStartOffset (ev : AUParameterEvent) : Int :=
  match ev.eventValues with
  | .immediate i => toSInt32 i.bufferOffset
  | .ramp r => r.startBufferOffset

/-- `AUElement::SetScheduledEvent` from `AUScopeElement.cpp`: ramped events
are logged and ignored; immediate events are forwarded to `SetParameter`
(`okWhenInitialized` defaults to `false` at the call site in
`ProcessForScheduledParams`). -/
def setScheduledEvent (initialized : Bool) (el : AUElementState) (paramID : Nat)
    (ev : AUParameterEvent) (okWhenInitialized : Bool) : Except Int AUElementState :=
  match ev.eventValues with
  | .ramp _ => .ok el
  | .immediate i => setParameter initialized el paramID i.value okWhenInitialized

/-- Modelled from the spec: the element table behind `AUBase::GetElement`
(declared in `AUBase.h`, which is not part of the sources at hand).  Per
spec §4.4 the scheduler "update[s] the ParameterStore for that event's
target id/scope"; an absent scope/element pair yields no store (the null
check in `ProcessForScheduledParams`). -/
def AUElements := List ((Nat × Nat) × AUElementState)
deriving DecidableEq, Repr

/-- Modelled from the spec: `AUBase::GetElement(scope, element)` as a finite
map lookup, `none` playing the role of the null pointer. -/
def getElement (els : AUElements) (scope element : Nat) : Option AUElementState :=
  (List.find? (fun p => p.1 = (scope, element)) els).map (·.2)

/-- Replace the state stored for `(scope, element)` (the in-place mutation
of the element object in the source). -/
def setElement (els : AUElements) (scope element : Nat) (el : AUElementState) : AUElements :=
  List.map (fun p => if p.1 = (scope, element) then (p.1, el) else p) els

/-- The "find the next break point" scan of `ProcessForScheduledParams`
(`AUBase.cpp`): walk the (sorted) event list with the running
`currentEndFrame` accumulator `cur`; an event start offset strictly inside
`(cursor, cur)` (as `SInt32` comparisons) replaces `cur` and breaks; a
ramp's end offset (`startBufferOffset + (SInt32)durationInFrames`) strictly
inside the window replaces `cur` without breaking. -/
def findEndFrameGo (cursor : Nat) : List AUParameterEvent → Nat → Nat
  | [], cur => cur
  | ev :: rest, cur =>
      match ev.eventValues with
      | .immediate i =>
          let off := toSInt32 i.bufferOffset
          if off > toSInt32 cursor ∧ off < toSInt32 cur then toUInt32 off
          else findEndFrameGo cursor rest cur
      | .ramp r =>
          let off := r.startBufferOffset
          if off > toSInt32 cursor ∧ off < toSInt32 cur then toUInt32 off
          else
            let off2 := r.startBufferOffset + toSInt32 r.durationInFrames
            if off2 > toSInt32 cursor ∧ off2 < toSInt32 cur then
              findEndFrameGo cursor rest (toUInt32 off2)
            else findEndFrameGo cursor rest cur

/-- One iteration's `currentEndFrame` computation: the scan starts from
`currentEndFrame = inFramesToProcess`. -/
def findEndFrame (events : List AUParameterEvent) (cursor n : Nat) : Nat :=
  findEndFrameGo cursor events n

/-- A value accepted by the window test of the scan lands strictly between
the cursor and the current end frame after the `UInt32` cast. -/
theorem cast_window_mem {off : Int} {cursor cur : Nat} (hlt : cursor < cur)
    (hcur : cur < u32Mod) (h1 : toSInt32 cursor < off) (h2 : off < toSInt32 cur) :
    cursor < toUInt32 off ∧ toUInt32 off < cur := by
  unfold toSInt32 at h1 h2
  unfold toUInt32 u32Mod i32Half at *
  split at h1 <;> split at h2 <;> omega

/-- The next break point lies strictly beyond the cursor and within the
current end frame. -/
theorem findEndFrameGo_bounds (cursor : Nat) :
    ∀ (l : List AUParameterEvent) (cur : Nat), cursor < cur → cur < u32Mod →
      cursor < findEndFrameGo cursor l cur ∧ findEndFrameGo cursor l cur ≤ cur := by
  intro l
  induction l with
  | nil => intro cur h1 h2; simpa [findEndFrameGo] using h1
  | cons ev rest ih =>
      intro cur h1 h2
      rcases hev : ev.eventValues with i | r
      · simp only [findEndFrameGo, hev]
        split
        · next hbr =>
            have hm := cast_window_mem h1 h2 hbr.1 hbr.2
            exact ⟨hm.1, le_of_lt hm.2⟩
        · exact ih cur h1 h2
      · simp only [findEndFrameGo, hev]
        split
        · next hbr =>
            have hm := cast_window_mem h1 h2 hbr.1 hbr.2
            exact ⟨hm.1, le_of_lt hm.2⟩
        · split
          · next hoff2 =>
              have hm := cast_window_mem h1 h2 hoff2.1 hoff2.2
              have := ih _ hm.1 (lt_trans hm.2 h2)
              exact ⟨this.1, le_trans this.2 (le_of_lt hm.2)⟩
          · exact ih cur h1 h2

theorem findEndFrame_bounds (events : List AUParameterEvent) {cursor n : Nat}
    (h1 : cursor < n) (h2 : n < u32Mod) :
    cursor < findEndFrame events cursor n ∧ findEndFrame events cursor n ≤ n :=
  findEndFrameGo_bounds cursor events n h1 h2

/-- The `eventFallsInSlice` test of `ProcessForScheduledParams`
(`AUBase.cpp`): ramps overlap the slice via signed comparisons; immediate
events fall in the slice when their (unsigned) offset is `≤` the cursor. -/
def eventFallsInSlice (ev : AUParameterEvent) (cursor endFrame : Nat) : Bool :=
  match ev.eventValues with
  | .ramp r =>
      decide (r.startBufferOffset < toSInt32 endFrame ∧
        r.startBufferOffset + toSInt32 r.durationInFrames > toSInt32 cursor)
  | .immediate i => decide (i.bufferOffset ≤ cursor)

/-- The per-slice "setup the parameter maps" loop of
`ProcessForScheduledParams`: for every event falling in the current slice
whose target element exists, apply `SetScheduledEvent` (with the default
`okWhenInitialized = false`).  An exception from `SetParameter` (indexed
mode, out-of-range id) propagates; the element table mutated so far is kept
in the second component, as the source mutates elements in place. -/
def applyEventsToElements (initialized : Bool) (cursor endFrame : Nat) :
    List AUParameterEvent → AUElements → Except Int Unit × AUElements
  | [], els => (.ok (), els)
  | ev :: rest, els =>
      if eventFallsInSlice ev cursor endFrame then
        match getElement els ev.scope ev.element with
        | none => applyEventsToElements initialized cursor endFrame rest els
        | some el =>
            match setScheduledEvent initialized el ev.parameter ev false with
            | .error e => (.error e, els)
            | .ok el' =>
                applyEventsToElements initialized cursor endFrame rest
                  (setElement els ev.scope ev.element el')
      else applyEventsToElements initialized cursor endFrame rest els

/-- Trace record of one slice: the arguments of the
`ProcessScheduledSlice` callback for this slice, and the element table at
the moment the callback runs. -/
structure SliceRec where
  startFrame : Nat
  frames : Nat
  elems : AUElements
deriving DecidableEq, Repr

/-- The `while (framesRemaining > 0)` loop of `ProcessForScheduledParams`
(`AUBase.cpp`), over a sorted event list.  `cb` models
`ProcessScheduledSlice` as a pure result code.  The loop condition is
expressed as `cursor < n` (with `framesRemaining = n - cursor`, the exact
invariant of the source, re-established each iteration because the computed
end frame lies in `(cursor, n]`); the guard `n < 2^32` records that `n` is
a `UInt32`.  Returns the function result (`Except.error` = a C++ exception
escaping, `.ok` = the returned `OSStatus`), the final element table, and
the trace of callback invocations. -/
def processLoop (initialized : Bool) (events : List AUParameterEvent) (n : Nat)
    (cb : Nat → Nat → Nat → Int) (cursor : Nat) (els : AUElements) :
    Except Int Int × AUElements × List SliceRec :=
  if h : cursor < n ∧ n < u32Mod then
    let e := findEndFrame events cursor n
    have he : cursor < e ∧ e ≤ n := findEndFrame_bounds events h.1 h.2
    let ap := applyEventsToElements initialized cursor e events els
    match ap.1 with
    | .error err => (.error err, ap.2, [])
    | .ok _ =>
        let slice : SliceRec := ⟨cursor, e - cursor, ap.2⟩
        let r := cb cursor (e - cursor) n
        if r ≠ 0 then (.ok r, ap.2, [slice])
        else
          let rest := processLoop initialized events n cb e ap.2
          (rest.1, rest.2.1, slice :: rest.2.2)
  else (.ok 0, els, [])
termination_by n - cursor
decreasing_by omega

/-- `AUBase::ProcessForScheduledParams(inParamList, inFramesToProcess, ...)`
from `AUBase.cpp`: sort the event list by start offset
(`ParameterEventListSortPredicate`), then run the slice loop from cursor 0. -/
def processForScheduledParams (initialized : Bool) (events : List AUParameterEvent)
    (n : Nat) (cb : Nat → Nat → Nat → Int) (els : AUElements) :
    Except Int Int × AUElements × List SliceRec :=
  processLoop initialized
    (events.mergeSort fun a b => eventStartOffset a ≤ eventStartOffset b) n cb 0 els

/-- The slice boundaries only (start frame and frame count of every slice),
independent of callback and parameter state: the same loop reduced to its
cursor arithmetic. -/
def partitionLoop (events : List AUParameterEvent) (n cursor : Nat) :
    List (Nat × Nat) :=
  if h : cursor < n ∧ n < u32Mod then
    let e := findEndFrame events cursor n
    have he : cursor < e ∧ e ≤ n := findEndFrame_bounds events h.1 h.2
    (cursor, e - cursor) :: partitionLoop events n e
  else []
termination_by n - cursor
decreasing_by omega

/-- The slice partition produced by `ProcessForScheduledParams` for a given
event list and frame count (after the sort). -/
def partitionSlices (events : List AUParameterEvent) (n : Nat) : List (Nat × Nat) :=
  partitionLoop (events.mergeSort fun a b => eventStartOffset a ≤ eventStartOffset b) n 0

/-! ## AUThreadSafeList.h: pending requests and `Update` -/

/-- A request node pushed onto the pending stack of `AUThreadSafeList`
(`EventType` plus payload; `Clear` carries no payload). -/
inductive TSLRequest (T : Type) where
  | add (obj : T)
  | remove (obj : T)
  | clear
deriving DecidableEq, Repr

/-- The observable state of an `AUThreadSafeList<T>`: the active list (in
head-to-tail order) and the pending stack (head = most recently pushed
request).  Node recycling through the free list does not affect the
element-level behaviour and is not modelled. -/
structure TSList (T : Type) where
  active : List T
  pending : List (TSLRequest T)
deriving DecidableEq, Repr

/-- `AUThreadSafeList::Add`: push an `Add` request onto the pending stack. -/
def tslAdd {T : Type} (l : TSList T) (obj : T) : TSList T :=
  { l with pending := .add obj :: l.pending }

/-- `AUThreadSafeList::Remove`: push a `Remove` request onto the pending
stack. -/
def tslRemove {T : Type} (l : TSList T) (obj : T) : TSList T :=
  { l with pending := .remove obj :: l.pending }

/-- `AUThreadSafeList::Clear`: push a `Clear` request onto the pending
stack. -/
def tslClear {T : Type} (l : TSList T) : TSList T :=
  { l with pending := .clear :: l.pending }

/-- Dispatch of one producer call (`Add`/`Remove`/`Clear`) onto the pending
stack. -/
def tslPush {T : Type} (l : TSList T) : TSLRequest T → TSList T
  | .add x => tslAdd l x
  | .remove x => tslRemove l x
  | .clear => tslClear l

/-- The `Remove` scan of `AUThreadSafeList::Update`: unlink the first node
whose object equals the request's object, if any. -/
def tslRemoveFirst {T : Type} [DecidableEq T] : List T → T → List T
  | [], _ => []
  | x :: xs, obj => if x = obj then xs else x :: tslRemoveFirst xs obj

/-- One replayed request of `AUThreadSafeList::Update`: `Add` appends at the
tail unless an equal object is already present (de-duplication); `Remove`
unlinks the first equal object; `Clear` empties the active list. -/
def tslApply {T : Type} [DecidableEq T] (active : List T) : TSLRequest T → List T
  | .add obj => if obj ∈ active then active else active ++ [obj]
  | .remove obj => tslRemoveFirst active obj
  | .clear => []

/-- `AUThreadSafeList::Update` (`AUThreadSafeList.h`): atomically detach the
entire pending stack, reverse it back into submission order, and replay
each request against the active list. -/
def tslUpdate {T : Type} [DecidableEq T] (l : TSList T) : TSList T :=
  { active := l.pending.reverse.foldl tslApply l.active, pending := [] }

/-! ## AUBuffer.h: `AUBufferList::CopyBufferContentsToOrError` -/

/-- A buffer entry together with the bytes its data pointer addresses: the
pointed-to region is modelled as the byte list itself (`none` = null
pointer).  Distinct buffers own distinct regions in this model; the
source's pointer-equality test `dstData != srcData` is modelled as equality
of the byte lists (which subsumes it: a skipped `memmove` between equal
regions is a no-op either way). -/
structure DataBuffer where
  mNumberChannels : Nat
  mDataByteSize : Nat
  mData : Option (List Nat)
deriving DecidableEq, Repr

/-- `memmove(dstData, srcData, srcByteSize)` guarded by the source's
`dstData != srcData` pointer test, on owned-region data: the destination
region receives the first `sz` source bytes, keeping its tail.  (A skipped
move between equal regions is the same no-op.) -/
def memmoveData (sz : Nat) (src dst : Option (List Nat)) : Option (List Nat) :=
  match src, dst with
  | some sd, some dd => if dd = sd then some dd else some (sd.take sz ++ dd.drop sz)
  | _, dd => dd

/-- The per-destination-stream loop of
`AUBufferList::CopyBufferContentsToOrError` (`AUBuffer.h`): iterate over the
destination entries with index `i`; once `i` reaches the source stream
count the source cursor stays on the last source stream (the
"duplicate last source to additional outputs" compatibility behaviour).
Each step fails when the source byte size is positive and either pointer is
null, otherwise `memmove`s `srcByteSize` bytes and stores the source byte
size in the destination entry.  (With zero source streams the source would
step a pointer before the array: that undefined case is modelled by the
`getD` default.) -/
def copyContentsLoop (srcBufs : List DataBuffer) : Nat → List DataBuffer →
    Except Int (List DataBuffer)
  | _, [] => .ok []
  | i, d :: rest =>
      let s := srcBufs.getD (min i (srcBufs.length - 1)) ⟨0, 0, none⟩
      let sz := s.mDataByteSize
      if sz > 0 ∧ (s.mData = none ∨ d.mData = none) then .error (-1)
      else
        (copyContentsLoop srcBufs (i + 1) rest).map
          (fun r => DataBuffer.mk d.mNumberChannels sz
            (memmoveData sz s.mData d.mData) :: r)

/-- `AUBufferList::CopyBufferContentsToOrError(destabl)` (`AUBuffer.h`):
fails with `Unexpected(-1)` when the list is in the `Invalid` state,
otherwise runs the copy loop over the destination entries. -/
def copyBufferContentsToOrError (state : EPtrState) (srcBufs destBufs : List DataBuffer) :
    Except Int (List DataBuffer) :=
  if state = .Invalid then .error (-1)
  else copyContentsLoop srcBufs 0 destBufs

/-! ## AUBase.cpp: the tail of `DoRender` -/

/-- The fields of `AUBase` that the control flow of `DoRender` consults,
with the scheduled-parameter event list. -/
structure DoRenderState where
  initialized : Bool
  maxFramesPerSlice : Nat
  usesFixedBlockSize : Bool
  paramEventList : List AUParameterEvent
  lastRenderError : Int
deriving Repr

/-- `kAudioUnitErr_Uninitialized`. -/
def kAudioUnitErr_Uninitialized : Int := -10867
/-- `kAudio_ParamError`. -/
def kAudio_ParamError : Int := -50

/-- `AUBase::DoRender` (`AUBase.cpp`), at the granularity the event-list
claim requires.  The validation gates mirror the source's early returns
(`errorExit` stores the render error and leaves the event list untouched).
`outputStreamsMatch` and `buffersLargeEnough` stand for the two buffer-shape
checks against the output element; `renderOutcome` abstracts the
`DoRenderBus` call (declared in `AUBase.h`, not among the sources at hand):
`.ok code` is a returned `OSStatus`, `.error e` a thrown exception, caught
by the surrounding `try` and routed through `errorExit` — note the event
list is cleared only on the non-throwing path, after the post-render
callbacks. -/
def doRender (st : DoRenderState) (framesToProcess : Nat)
    (outputStreamsMatch buffersLargeEnough : Bool)
    (renderOutcome : Except Int Int) : Int × DoRenderState :=
  if ¬ st.initialized then
    (kAudioUnitErr_Uninitialized, { st with lastRenderError := kAudioUnitErr_Uninitialized })
  else if framesToProcess > st.maxFramesPerSlice then
    (kAudioUnitErr_TooManyFramesToProcess,
      { st with lastRenderError := kAudioUnitErr_TooManyFramesToProcess })
  else if st.usesFixedBlockSize ∧ framesToProcess ≠ st.maxFramesPerSlice then
    (kAudio_ParamError, { st with lastRenderError := kAudio_ParamError })
  else if ¬ outputStreamsMatch then
    (kAudio_ParamError, { st with lastRenderError := kAudio_ParamError })
  else if ¬ buffersLargeEnough then
    (kAudio_ParamError, { st with lastRenderError := kAudio_ParamError })
  else
    match renderOutcome with
    | .error e => (e, { st with lastRenderError := e })
    | .ok code => (code, { st with lastRenderError := code, paramEventList := [] })

/-! ## Spec-side definitions (claim wording) for the slice partition -/

/-- Candidate boundaries contributed by one event, in the words of the
specification: an immediate event's offset, or a ramped event's start
offset and end offset (`start + duration`), as exact integers. -/
def eventCandidates (ev : AUParameterEvent) : List Int :=
  match ev.eventValues with
  | .immediate i => [(i.bufferOffset : Int)]
  | .ramp r => [r.startBufferOffset, r.startBufferOffset + (r.durationInFrames : Int)]

/-- Candidate boundaries in the words of the specification: immediate-event
offsets, ramped-event start offsets, and ramped-event end offsets. -/
def specCandidates (events : List AUParameterEvent) : List Int :=
  events.flatMap eventCandidates

/-- The true minimum candidate boundary strictly between `cursor` and `n`,
defaulting to `n` when no candidate lies strictly between them (the
specification's definition of a slice's end). -/
def specMinBoundary (events : List AUParameterEvent) (cursor n : Nat) : Int :=
  ((specCandidates events).filter fun c =>
    decide ((cursor : Int) < c ∧ c < (n : Int))).foldr min (n : Int)

/-- `ChainFrom n c slices` states that `slices` (as `(start, length)` pairs)
are consecutive, non-empty, begin at cursor `c`, and end exactly at `n`. -/
def ChainFrom (n : Nat) : Nat → List (Nat × Nat) → Prop
  | c, [] => c = n
  | c, (s, len) :: rest => s = c ∧ 0 < len ∧ ChainFrom n (s + len) rest

/-- All ramp durations below `2^31` (so that the source's
`static_cast<SInt32>(durationInFrames)` is value-preserving). -/
def DurationsBounded (events : List AUParameterEvent) : Prop :=
  ∀ ev ∈ events, ∀ r, ev.eventValues = .ramp r → r.durationInFrames < i32Half

/-- Immediate-event `bufferOffset` fields are `UInt32` values. -/
def OffsetsInUInt32 (events : List AUParameterEvent) : Prop :=
  ∀ ev ∈ events, ∀ i, ev.eventValues = .immediate i → i.bufferOffset < u32Mod

/-! ## Theorems -/

/-- `PrepareOrError` with a byte request beyond the per-buffer capacity
fails with `Unexpected(-1)` before mutating the buffer list. -/
theorem prepareOrError_bytes_exceeded (ab : AllocatedBuffer) (ch bytes : Nat)
    (h : ab.mMaximumBytesPerBuffer < bytes) :
    prepareOrError ab ch bytes = (.error (-1), ab) := by
  unfold prepareOrError
  split
  · rfl
  · rfl

/-- C3: a prepare request whose stream count exceeds the allocated stream
capacity or whose computed bytes-per-stream exceed the region's per-stream
capacity makes `AUBufferList::PrepareBufferOrError` return an error result
(this path never throws), and the binding state (`Invalid` / `ToMyMemory` /
`ToExternalMemory`) is exactly what it was before the call. -/
theorem prepareBuffer_capacity_error_preserves_state
    (bl : AUBufferList) (fmt : StreamFormat) (nFrames : Nat)
    (h : bl.mAllocatedStreams < numberChannelStreams fmt ∨
      bl.mBuffers.mMaximumBytesPerBuffer < nFrames * fmt.mBytesPerFrame % u32Mod) :
    (∃ e : Int, (prepareBufferOrError bl fmt nFrames).1 = .error e) ∧
    (prepareBufferOrError bl fmt nFrames).2.mPtrState = bl.mPtrState := by
  unfold prepareBufferOrError
  by_cases hfr : nFrames > bl.mAllocatedFrames
  · rw [if_pos hfr]
    exact ⟨⟨_, rfl⟩, rfl⟩
  · rw [if_neg hfr]
    by_cases hs : numberChannelStreams fmt > bl.mAllocatedStreams
    · rw [if_pos hs]
      exact ⟨⟨_, rfl⟩, rfl⟩
    · rw [if_neg hs]
      rcases h with h | h
      · exact absurd h hs
      · rw [prepareOrError_bytes_exceeded bl.mBuffers _ _ h]
        exact ⟨⟨_, rfl⟩, rfl⟩

/-- C3 witness: a region with capacity 2 streams × 16 bytes, a
3-channel non-interleaved format (3 streams), previously bound to external
memory: the prepare fails and the binding state is untouched. -/
theorem prepareBuffer_capacity_error_preserves_state_witness :
    let ab : AllocatedBuffer := ⟨2, 16, 32, List.replicate 32 0, 2,
      List.replicate 2 ⟨0, 0, none⟩⟩
    let bl : AUBufferList := ⟨.ToExternalMemory, ab, 2, 4⟩
    let fmt : StreamFormat := ⟨3, 4, false⟩
    (∃ e : Int, (prepareBufferOrError bl fmt 4).1 = .error e) ∧
    (prepareBufferOrError bl fmt 4).2.mPtrState = bl.mPtrState :=
  prepareBuffer_capacity_error_preserves_state _ _ _ (by decide)

/-- Rounding up to a multiple of 16 does not decrease the value as long as
the 32-bit addition `x + 15` does not wrap. -/
theorem roundUpTo16_ge {x : Nat} (h : x ≤ u32Mod - 16) : x ≤ roundUpTo16 x := by
  unfold roundUpTo16
  rw [Nat.mod_eq_of_lt (by unfold u32Mod at *; omega)]
  omega

/-- `SafeMultiplyAddUInt32(a, b, 0)` returns the product when it fits in
32 bits. -/
theorem safeMultiplyAdd_ok (a b : Nat) (hsz : a * b < u32Mod) :
    safeMultiplyAddUInt32 a b 0 = .ok (a * b) := by
  unfold safeMultiplyAddUInt32
  by_cases h0 : a = 0 ∨ b = 0
  · rw [if_pos h0]
    have hz : a * b = 0 := by rcases h0 with h0 | h0 <;> simp [h0]
    rw [hz]
  · rw [if_neg h0]
    rw [if_neg (by
      have hb : 0 < b := by omega
      have : a ≤ (u32Mod - 1 - 0) / b := (Nat.le_div_iff_mul_le hb).mpr (by omega)
      omega)]
    rfl

/-- `BufferAllocator::Allocate` succeeds whenever the buffer count is within
range and the (rounded) payload size fits in 32 bits, returning the
zero-filled record. -/
theorem bufferAllocate_ok (n maxB : Nat) (hn : n ≤ maxNumberBuffers)
    (hsz : n * roundUpTo16 maxB < u32Mod) :
    bufferAllocate n maxB = .ok ⟨n, roundUpTo16 maxB, n * roundUpTo16 maxB,
      List.replicate (n * roundUpTo16 maxB) 0, n, List.replicate n ⟨0, 0, none⟩⟩ := by
  unfold bufferAllocate
  rw [if_neg (by omega), safeMultiplyAdd_ok _ _ hsz]

/-- `PrepareOrError` succeeds when every capacity check passes, binding each
entry at the per-buffer stride. -/
theorem prepareOrError_success (ab : AllocatedBuffer) (ch bytes : Nat)
    (h1 : ab.mNumberBuffers ≤ ab.mMaximumNumberBuffers)
    (h2 : bytes ≤ ab.mMaximumBytesPerBuffer)
    (h3 : ab.mNumberBuffers * ab.mMaximumBytesPerBuffer ≤ ab.mBufferDataSize) :
    prepareOrError ab ch bytes = (.ok (),
      { ab with mBuffers := ((List.range ab.mNumberBuffers).map fun i =>
          AudioBuffer.mk ch bytes
            (if ab.mBufferData.length = 0 then none
             else some (i * ab.mMaximumBytesPerBuffer))) }) := by
  unfold prepareOrError
  rw [if_neg (by omega), if_neg (by omega), if_neg (by omega)]

/-- C5: after a successful `Allocate(numStreams, maxBytesPerStream)` (no
overflow, count in range, rounding not wrapping), `PrepareOrError(channels,
bytes)` with `bytes ≤ maxBytesPerStream` succeeds and yields exactly
`numStreams` entries, each with byte size `bytes`, channel count `channels`,
and a data pointer at offset `i ×` (the region's per-stream maximum) inside
the zero-initialized region. -/
theorem allocate_then_prepare_success (n maxB ch bytes : Nat)
    (hn : n ≤ maxNumberBuffers) (hnz : 0 < n) (hmB : 0 < maxB)
    (hmBle : maxB ≤ u32Mod - 16) (hsz : n * roundUpTo16 maxB < u32Mod)
    (hb : bytes ≤ maxB) :
    ∃ ab, bufferAllocate n maxB = .ok ab ∧
      ab.mBufferData = List.replicate ab.mBufferDataSize 0 ∧
      ab.mMaximumBytesPerBuffer = roundUpTo16 maxB ∧
      (prepareOrError ab ch bytes).1 = .ok () ∧
      (prepareOrError ab ch bytes).2.mBuffers.length = n ∧
      ∀ i, i < n →
        (prepareOrError ab ch bytes).2.mBuffers[i]? =
          some ⟨ch, bytes, some (i * ab.mMaximumBytesPerBuffer)⟩ ∧
        i * ab.mMaximumBytesPerBuffer + bytes ≤ ab.mBufferDataSize := by
  refine ⟨_, bufferAllocate_ok n maxB hn hsz, rfl, rfl, ?_⟩
  have hround : maxB ≤ roundUpTo16 maxB := roundUpTo16_ge hmBle
  rw [prepareOrError_success _ ch bytes (le_refl _) (by simpa using by omega)
    (le_refl _)]
  refine ⟨rfl, by simp, ?_⟩
  intro i hi
  have hrep : ¬ (List.replicate (n * roundUpTo16 maxB) (0 : Nat)).length = 0 := by
    simp only [List.length_replicate]
    intro hz
    rcases Nat.mul_eq_zero.mp hz with h | h <;> omega
  constructor
  · simp only [List.getElem?_map, List.getElem?_range, hi]
    simp only [if_neg hrep]
    rfl
  · calc i * roundUpTo16 maxB + bytes
        ≤ i * roundUpTo16 maxB + roundUpTo16 maxB := by omega
      _ = (i + 1) * roundUpTo16 maxB := by ring
      _ ≤ n * roundUpTo16 maxB := Nat.mul_le_mul_right _ (by omega)

/-- C5 witness: 2 streams of at most 100 bytes; prepare with 2 channels and
96 bytes. -/
theorem allocate_then_prepare_success_witness :
    ∃ ab, bufferAllocate 2 100 = .ok ab ∧
      ab.mBufferData = List.replicate ab.mBufferDataSize 0 ∧
      ab.mMaximumBytesPerBuffer = roundUpTo16 100 ∧
      (prepareOrError ab 2 96).1 = .ok () ∧
      (prepareOrError ab 2 96).2.mBuffers.length = 2 ∧
      ∀ i, i < 2 →
        (prepareOrError ab 2 96).2.mBuffers[i]? =
          some ⟨2, 96, some (i * ab.mMaximumBytesPerBuffer)⟩ ∧
        i * ab.mMaximumBytesPerBuffer + 96 ≤ ab.mBufferDataSize :=
  allocate_then_prepare_success 2 100 2 96 (by decide) (by decide) (by decide)
    (by decide) (by decide) (by decide)

/-- C6 counterexample: the overflow check of `BufferAllocator::Allocate`
applies to the 16-byte-rounded per-buffer size, not to the requested one.
(a) `numberBuffers = 4096`, `maxBytesPerBuffer = 1048575`: the product
`4096 × 1048575 = 4294963200` fits in 32 bits and the count is in range,
yet the allocation throws `bad_alloc` (because `4096 × 1048576 = 2^32`).
(b) `numberBuffers = 2`, `maxBytesPerBuffer = 2^32 − 1`: the product
overflows 32 bits, yet the allocation succeeds (the rounding wraps to 0),
returning an empty payload. -/
theorem bufferAllocate_rounded_overflow_counterexample :
    (4096 * 1048575 < u32Mod ∧ 4096 ≤ maxNumberBuffers ∧
      bufferAllocate 4096 1048575 = .error .badAlloc) ∧
    (¬ 2 * 4294967295 < u32Mod ∧ 2 ≤ maxNumberBuffers ∧
      bufferAllocate 2 4294967295 =
        .ok ⟨2, 0, 0, [], 2, List.replicate 2 ⟨0, 0, none⟩⟩) := by
  refine ⟨⟨by decide, by decide, ?_⟩, ⟨by decide, by decide, ?_⟩⟩ <;> rfl

/-- C6 (amended): `Allocate` fails with `out_of_range` exactly when
`numberBuffers` exceeds `65536 / sizeof(AudioBuffer) = 4096`; otherwise it
fails with `bad_alloc` exactly when `numberBuffers × roundUp16(maxBytes)`
(rounding computed in 32-bit arithmetic) does not fit in 32 bits; otherwise
it returns a zero-filled payload of `numberBuffers × roundUp16(maxBytes)`
bytes, which is at least `numberBuffers × maxBytes` whenever the rounding
does not wrap (`maxBytes ≤ 2^32 − 16`). -/
theorem bufferAllocate_characterization (n maxB : Nat) :
    (maxNumberBuffers < n → bufferAllocate n maxB = .error .outOfRange) ∧
    (n ≤ maxNumberBuffers → u32Mod ≤ n * roundUpTo16 maxB →
      bufferAllocate n maxB = .error .badAlloc) ∧
    (n ≤ maxNumberBuffers → n * roundUpTo16 maxB < u32Mod →
      bufferAllocate n maxB = .ok ⟨n, roundUpTo16 maxB, n * roundUpTo16 maxB,
        List.replicate (n * roundUpTo16 maxB) 0, n, List.replicate n ⟨0, 0, none⟩⟩ ∧
      (maxB ≤ u32Mod - 16 → n * maxB ≤ n * roundUpTo16 maxB)) := by
  refine ⟨?_, ?_, ?_⟩
  · intro h
    unfold bufferAllocate
    rw [if_pos (by omega)]
  · intro hn hsz
    unfold bufferAllocate
    rw [if_neg (by omega)]
    have h0 : ¬ (n = 0 ∨ roundUpTo16 maxB = 0) := by
      intro h0
      have hz : n * roundUpTo16 maxB = 0 := by rcases h0 with h0 | h0 <;> simp [h0]
      unfold u32Mod at hsz
      omega
    have hb : 0 < roundUpTo16 maxB := by
      rcases Nat.eq_zero_or_pos (roundUpTo16 maxB) with hc | hc
      · exact absurd (Or.inr hc) h0
      · exact hc
    have hlt : u32Mod - 1 - 0 < n * roundUpTo16 maxB := by
      unfold u32Mod at hsz ⊢
      omega
    have hovf : safeMultiplyAddUInt32 n (roundUpTo16 maxB) 0 = .error .badAlloc := by
      unfold safeMultiplyAddUInt32
      rw [if_neg h0, if_pos ((Nat.div_lt_iff_lt_mul hb).mpr hlt)]
    rw [hovf]
  · intro hn hsz
    refine ⟨bufferAllocate_ok n maxB hn hsz, fun hle => ?_⟩
    exact Nat.mul_le_mul_left _ (roundUpTo16_ge hle)

/-- C6 witness: the amended characterization at `n = 4097` (out of range),
`n = 4096, maxBytes = 1048575` (rounded overflow), and
`n = 2, maxBytes = 100` (success with a 224-byte zeroed payload). -/
theorem bufferAllocate_characterization_witness :
    bufferAllocate 4097 5 = .error .outOfRange ∧
    bufferAllocate 4096 1048575 = .error .badAlloc ∧
    (bufferAllocate 2 100 = .ok ⟨2, roundUpTo16 100, 2 * roundUpTo16 100,
        List.replicate (2 * roundUpTo16 100) 0, 2, List.replicate 2 ⟨0, 0, none⟩⟩ ∧
      (100 ≤ u32Mod - 16 → 2 * 100 ≤ 2 * roundUpTo16 100)) :=
  ⟨(bufferAllocate_characterization 4097 5).1 (by decide),
   (bufferAllocate_characterization 4096 1048575).2.1 (by decide) (by decide),
   (bufferAllocate_characterization 2 100).2.2 (by decide) (by decide)⟩

/-- Looking up a key just stored with `flat_map::operator[]=` yields the
stored value. -/
theorem flatMapFind_flatMapSet_self (l : List (Nat × AUParameterValue)) (k : Nat)
    (v : AUParameterValue) : flatMapFind (flatMapSet l k v) k = some v := by
  induction l with
  | nil => simp [flatMapSet, flatMapFind]
  | cons p rest ih =>
      unfold flatMapSet
      by_cases h1 : p.1 < k
      · rw [if_pos h1]
        unfold flatMapFind
        rw [if_pos h1]
        exact ih
      · rw [if_neg h1]
        by_cases h2 : p.1 = k
        · rw [if_pos h2]
          unfold flatMapFind
          rw [if_neg (by omega), if_pos rfl]
        · rw [if_neg h2]
          unfold flatMapFind
          rw [if_neg (by omega), if_pos rfl]

/-- C7: in sparse (non-indexed) mode with the owning unit initialized, a
`SetParameter` on an id absent from the map without `okWhenInitialized`
returns successfully (nothing thrown) and leaves the map completely
unchanged; the same call with the flag set, or with the unit not
initialized, inserts the new `(id, value)` entry. -/
theorem setParameter_sparse_unknown (el : AUElementState) (id : Nat)
    (v : AUParameterValue) (hSparse : el.mUseIndexedParameters = false)
    (hUnknown : flatMapFind el.mParameters id = none) :
    setParameter true el id v false = .ok el ∧
    (setParameter true el id v true =
        .ok { el with mParameters := flatMapSet el.mParameters id v } ∧
      setParameter false el id v false =
        .ok { el with mParameters := flatMapSet el.mParameters id v }) ∧
    flatMapFind (flatMapSet el.mParameters id v) id = some v := by
  refine ⟨?_, ⟨?_, ?_⟩, flatMapFind_flatMapSet_self _ _ _⟩ <;>
    simp [setParameter, hSparse, hUnknown]

/-- C7 witness: a sparse element holding `{3 ↦ 5}`; setting unknown id 7. -/
theorem setParameter_sparse_unknown_witness :
    let el : AUElementState := ⟨false, [], [(3, 5)]⟩
    setParameter true el 7 9 false = .ok el ∧
    (setParameter true el 7 9 true =
        .ok { el with mParameters := flatMapSet el.mParameters 7 9 } ∧
      setParameter false el 7 9 false =
        .ok { el with mParameters := flatMapSet el.mParameters 7 9 }) ∧
    flatMapFind (flatMapSet el.mParameters 7 9) 7 = some 9 :=
  setParameter_sparse_unknown _ 7 9 (by decide) (by decide)

/-- C4: a `DoRender` call that passes validation and reaches the render
stage with a non-empty scheduled-parameter event list leaves the pending
event list empty on return, for every returned `OSStatus` (success, an
error result from rendering, or a failure propagated from the slice loop),
and propagates the rendering result code. -/
theorem doRender_clears_param_events (st : DoRenderState) (framesToProcess : Nat)
    (code : Int) (hInit : st.initialized = true)
    (hFrames : framesToProcess ≤ st.maxFramesPerSlice)
    (hFixed : st.usesFixedBlockSize = true → framesToProcess = st.maxFramesPerSlice)
    (hNE : st.paramEventList ≠ []) :
    (doRender st framesToProcess true true (.ok code)).2.paramEventList = [] ∧
    (doRender st framesToProcess true true (.ok code)).1 = code := by
  unfold doRender
  rw [if_neg (by simp [hInit]), if_neg (by omega),
    if_neg (by intro h; exact absurd (hFixed h.1) h.2), if_neg (by simp),
    if_neg (by simp)]
  exact ⟨rfl, rfl⟩

/-- C4 witness: an initialized unit with one pending event, rendering 64 of
at most 128 frames, render result `-10863`: the event list is cleared. -/
theorem doRender_clears_param_events_witness :
    let st : DoRenderState := ⟨true, 128, false, [⟨0, 0, 7, .immediate ⟨1, 0⟩⟩], 0⟩
    (doRender st 64 true true (.ok (-10863))).2.paramEventList = [] ∧
    (doRender st 64 true true (.ok (-10863))).1 = -10863 :=
  doRender_clears_param_events _ 64 (-10863) rfl (by decide)
    (by intro h; exact absurd h (by decide)) (by decide)

/-- C2 counterexample: if the three requests are pushed in the order
`remove(X), add(X), add(Y)` (possible when the `remove` racer is scheduled
first), a single `Update()` yields the active list `[X, Y]`, not `{Y}`:
the `Remove` replays before any `Add` and is a no-op on the empty active
list. -/
theorem tslUpdate_remove_first_counterexample :
    (tslUpdate (tslPush (tslPush (tslPush (⟨[], []⟩ : TSList Nat)
        (.remove 0)) (.add 0)) (.add 1))).active = [0, 1] ∧
    ¬ (tslUpdate (tslPush (tslPush (tslPush (⟨[], []⟩ : TSList Nat)
        (.remove 0)) (.add 0)) (.add 1))).active = [1] := by
  constructor <;> decide

/-- C2 (amended): starting from an empty `AUThreadSafeList`, for every
order in which the three requests `add(X)`, `add(Y)`, `remove(X)` (with
`X ≠ Y`) are pushed onto the pending list **in which `add(X)` precedes
`remove(X)`**, a single subsequent `Update()` leaves the active list
containing exactly the one element `Y`.  (In the remaining orders, where
`remove(X)` is pushed first, the result is `{Y, X}`.) -/
theorem tslUpdate_add_before_remove {T : Type} [DecidableEq T] (X Y : T)
    (hXY : X ≠ Y) (reqs : List (TSLRequest T))
    (hreqs : reqs = [.add X, .add Y, .remove X] ∨
      reqs = [.add X, .remove X, .add Y] ∨
      reqs = [.add Y, .add X, .remove X]) :
    (tslUpdate (reqs.foldl tslPush ⟨[], []⟩)).active = [Y] := by
  have hYX : Y ≠ X := fun h => hXY h.symm
  rcases hreqs with h | h | h <;> subst h <;>
    simp [tslUpdate, tslPush, tslAdd, tslRemove, tslApply, tslRemoveFirst, hXY, hYX]

/-- C2 witness: `X = 0`, `Y = 1`, pushed in the order
`add(X), add(Y), remove(X)`. -/
theorem tslUpdate_add_before_remove_witness :
    (tslUpdate (([.add 0, .add 1, .remove 0] :
      List (TSLRequest Nat)).foldl tslPush ⟨[], []⟩)).active = [1] :=
  tslUpdate_add_before_remove 0 1 (by decide) _ (Or.inl rfl)

/-- On two non-null regions, the modelled `memmove` always produces the
first `sz` source bytes followed by the destination's tail (the skipped
self-move case included, by `take_append_drop`). -/
theorem memmoveData_some (sz : Nat) (sd dd : List Nat) :
    memmoveData sz (some sd) (some dd) = some (sd.take sz ++ dd.drop sz) := by
  by_cases h : dd = sd
  · subst h
    simp [memmoveData, List.take_append_drop]
  · simp [memmoveData, h]

/-- The copy loop succeeds on well-formed buffers and produces, at each
destination position `j`, an entry carrying the source bytes of stream
`min (i+j) (S-1)` followed by the retained tail of the destination bytes. -/
theorem copyContentsLoop_ok (srcBufs : List DataBuffer) (hS : srcBufs ≠ [])
    (hsrc : ∀ b ∈ srcBufs, ∃ d, b.mData = some d ∧ d.length = b.mDataByteSize) :
    ∀ (dest : List DataBuffer) (i : Nat),
      (∀ b ∈ dest, b.mData ≠ none) →
      ∃ out, copyContentsLoop srcBufs i dest = .ok out ∧
        out.length = dest.length ∧
        ∀ j (hj : j < dest.length),
          ∃ sd dd,
            (srcBufs.getD (min (i + j) (srcBufs.length - 1)) ⟨0, 0, none⟩).mData
              = some sd ∧
            (dest.get ⟨j, hj⟩).mData = some dd ∧
            out[j]? = some ⟨(dest.get ⟨j, hj⟩).mNumberChannels,
              (srcBufs.getD (min (i + j) (srcBufs.length - 1))
                ⟨0, 0, none⟩).mDataByteSize,
              some (sd ++ dd.drop sd.length)⟩ := by
  intro dest
  induction dest with
  | nil =>
      intro i _
      exact ⟨[], rfl, rfl, fun j hj => absurd hj (by simp)⟩
  | cons d rest ih =>
      intro i hdst
      have hSpos : 0 < srcBufs.length := List.length_pos.mpr hS
      have hk : min i (srcBufs.length - 1) < srcBufs.length := by omega
      have hmem : srcBufs.getD (min i (srcBufs.length - 1)) ⟨0, 0, none⟩ ∈ srcBufs := by
        rw [List.getD_eq_getElem srcBufs _ hk]
        exact List.getElem_mem hk
      obtain ⟨sd, hsd, hlen⟩ := hsrc _ hmem
      obtain ⟨dd, hdd⟩ : ∃ dd, d.mData = some dd := by
        rcases hd : d.mData with _ | dd
        · exact absurd hd (hdst d (by simp))
        · exact ⟨dd, rfl⟩
      obtain ⟨out', hout', hlen', hspec'⟩ := ih (i + 1) (fun b hb => hdst b (by simp [hb]))
      refine ⟨⟨d.mNumberChannels,
        (srcBufs.getD (min i (srcBufs.length - 1)) ⟨0, 0, none⟩).mDataByteSize,
        some (sd ++ dd.drop sd.length)⟩ :: out', ?_, by simpa using hlen', ?_⟩
      · unfold copyContentsLoop
        rw [if_neg (by
          rintro ⟨-, h | h⟩
          · rw [hsd] at h; cases h
          · rw [hdd] at h; cases h)]
        rw [hout']
        simp only [Except.map]
        rw [hsd, hdd, memmoveData_some, ← hlen, List.take_length]
      · intro j hj
        match j with
        | 0 =>
            refine ⟨sd, dd, hsd, by simpa using hdd, ?_⟩
            simp
        | j + 1 =>
            have hj' : j < rest.length := by simpa using hj
            obtain ⟨sd', dd', h1, h2, h3⟩ := hspec' j hj'
            refine ⟨sd', dd', ?_, by simpa using h2, ?_⟩
            · have : i + 1 + j = i + (j + 1) := by omega
              rw [← this]; exact h1
            · have : i + 1 + j = i + (j + 1) := by omega
              rw [← this]
              simpa using h3

/-- C8: for every valid (non-`Invalid`) source buffer list with `S ≥ 1`
streams of well-formed data and every destination list with `D > S` streams
and non-null data pointers, `CopyBufferContentsToOrError` succeeds;
destination streams `0..S-1` receive the corresponding source stream's
bytes and byte size, and each extra destination stream `S..D-1` receives
the last source stream's bytes and byte size. -/
theorem copyBufferContents_extra_streams (state : EPtrState)
    (srcBufs destBufs : List DataBuffer) (hstate : state ≠ .Invalid)
    (hS : srcBufs ≠ []) (hDS : srcBufs.length < destBufs.length)
    (hsrc : ∀ b ∈ srcBufs, ∃ d, b.mData = some d ∧ d.length = b.mDataByteSize)
    (hdst : ∀ b ∈ destBufs, b.mData ≠ none) :
    ∃ out, copyBufferContentsToOrError state srcBufs destBufs = .ok out ∧
      out.length = destBufs.length ∧
      (∀ j (hj1 : j < srcBufs.length) (hj2 : j < destBufs.length),
        ∃ sd dd, (srcBufs.get ⟨j, hj1⟩).mData = some sd ∧
          (destBufs.get ⟨j, hj2⟩).mData = some dd ∧
          out[j]? = some ⟨(destBufs.get ⟨j, hj2⟩).mNumberChannels,
            (srcBufs.get ⟨j, hj1⟩).mDataByteSize, some (sd ++ dd.drop sd.length)⟩) ∧
      (∀ j (hj2 : j < destBufs.length), srcBufs.length ≤ j →
        ∃ sd dd, (srcBufs.getLast hS).mData = some sd ∧
          (destBufs.get ⟨j, hj2⟩).mData = some dd ∧
          out[j]? = some ⟨(destBufs.get ⟨j, hj2⟩).mNumberChannels,
            (srcBufs.getLast hS).mDataByteSize, some (sd ++ dd.drop sd.length)⟩) := by
  obtain ⟨out, hout, hlen, hspec⟩ := copyContentsLoop_ok srcBufs hS hsrc destBufs 0 hdst
  have hSpos : 0 < srcBufs.length := List.length_pos.mpr hS
  refine ⟨out, ?_, hlen, ?_, ?_⟩
  · unfold copyBufferContentsToOrError
    rw [if_neg hstate]
    exact hout
  · intro j hj1 hj2
    obtain ⟨sd, dd, h1, h2, h3⟩ := hspec j hj2
    have hmin : min (0 + j) (srcBufs.length - 1) = j := by omega
    rw [hmin, List.getD_eq_getElem srcBufs _ (by omega)] at h1 h3
    exact ⟨sd, dd, h1, h2, h3⟩
  · intro j hj2 hge
    obtain ⟨sd, dd, h1, h2, h3⟩ := hspec j hj2
    have hmin : min (0 + j) (srcBufs.length - 1) = srcBufs.length - 1 := by omega
    rw [hmin, List.getD_eq_getElem srcBufs _ (by omega)] at h1 h3
    rw [List.getLast_eq_getElem]
    exact ⟨sd, dd, h1, h2, h3⟩

/-- C8 witness: one source stream `[5, 6]` copied into a two-stream
destination: the extra stream duplicates the last (only) source stream. -/
theorem copyBufferContents_extra_streams_witness :
    ∃ out, copyBufferContentsToOrError .ToMyMemory
        [⟨1, 2, some [5, 6]⟩]
        [⟨1, 2, some [0, 0]⟩, ⟨1, 3, some [0, 0, 0]⟩] = .ok out ∧
      out.length = 2 ∧ out[0]? = some ⟨1, 2, some [5, 6]⟩ ∧
      out[1]? = some ⟨1, 2, some [5, 6, 0]⟩ := by
  obtain ⟨out, hout, hlen, hlow, hhigh⟩ := copyBufferContents_extra_streams
    .ToMyMemory [⟨1, 2, some [5, 6]⟩] [⟨1, 2, some [0, 0]⟩, ⟨1, 3, some [0, 0, 0]⟩]
    (by decide) (by decide) (by decide)
    (by intro b hb; simp at hb; exact ⟨[5, 6], by simp [hb]⟩)
    (by intro b hb; simp at hb; rcases hb with hb | hb <;> simp [hb])
  obtain ⟨sd, dd, h1, h2, h3⟩ := hlow 0 (by decide) (by decide)
  obtain ⟨sd', dd', h1', h2', h3'⟩ := hhigh 1 (by decide) (by decide)
  simp only [List.get] at h1 h2 h1' h2'
  cases h1; cases h2
  refine ⟨out, hout, hlen, by simpa using h3, ?_⟩
  rw [List.getLast_eq_getElem] at h1'
  simp at h1'
  cases h1'
  cases h2'
  simpa using h3'

/-- Unfolding: the slice loop when the per-slice event application throws. -/
theorem processLoop_step_error {initialized : Bool} {events : List AUParameterEvent}
    {n : Nat} {cb : Nat → Nat → Nat → Int} {cursor : Nat} {els : AUElements} {err : Int}
    (h : cursor < n ∧ n < u32Mod)
    (herr : (applyEventsToElements initialized cursor (findEndFrame events cursor n)
      events els).1 = .error err) :
    processLoop initialized events n cb cursor els =
      (.error err, (applyEventsToElements initialized cursor
        (findEndFrame events cursor n) events els).2, []) := by
  rw [processLoop.eq_def]
  simp only [dif_pos h, herr]

/-- Unfolding: the slice loop when the callback fails on the current slice. -/
theorem processLoop_step_fail {initialized : Bool} {events : List AUParameterEvent}
    {n : Nat} {cb : Nat → Nat → Nat → Int} {cursor : Nat} {els : AUElements}
    (h : cursor < n ∧ n < u32Mod)
    (hok : (applyEventsToElements initialized cursor (findEndFrame events cursor n)
      events els).1 = .ok ())
    (hr : cb cursor (findEndFrame events cursor n - cursor) n ≠ 0) :
    processLoop initialized events n cb cursor els =
      (.ok (cb cursor (findEndFrame events cursor n - cursor) n),
        (applyEventsToElements initialized cursor (findEndFrame events cursor n)
          events els).2,
        [⟨cursor, findEndFrame events cursor n - cursor,
          (applyEventsToElements initialized cursor (findEndFrame events cursor n)
            events els).2⟩]) := by
  rw [processLoop.eq_def]
  simp only [dif_pos h, hok, if_pos hr]

/-- Unfolding: the slice loop when the callback succeeds on the current
slice and the loop continues. -/
theorem processLoop_step_cont {initialized : Bool} {events : List AUParameterEvent}
    {n : Nat} {cb : Nat → Nat → Nat → Int} {cursor : Nat} {els : AUElements}
    (h : cursor < n ∧ n < u32Mod)
    (hok : (applyEventsToElements initialized cursor (findEndFrame events cursor n)
      events els).1 = .ok ())
    (hr : cb cursor (findEndFrame events cursor n - cursor) n = 0) :
    processLoop initialized events n cb cursor els =
      ((processLoop initialized events n cb (findEndFrame events cursor n)
          (applyEventsToElements initialized cursor (findEndFrame events cursor n)
            events els).2).1,
        (processLoop initialized events n cb (findEndFrame events cursor n)
          (applyEventsToElements initialized cursor (findEndFrame events cursor n)
            events els).2).2.1,
        ⟨cursor, findEndFrame events cursor n - cursor,
          (applyEventsToElements initialized cursor (findEndFrame events cursor n)
            events els).2⟩ ::
        (processLoop initialized events n cb (findEndFrame events cursor n)
          (applyEventsToElements initialized cursor (findEndFrame events cursor n)
            events els).2).2.2) := by
  rw [processLoop.eq_def]
  simp only [dif_pos h, hok, hr]
  simp

/-- Unfolding: the slice loop once the cursor has consumed all frames. -/
theorem processLoop_done {initialized : Bool} {events : List AUParameterEvent}
    {n : Nat} {cb : Nat → Nat → Nat → Int} {cursor : Nat} {els : AUElements}
    (h : ¬ (cursor < n ∧ n < u32Mod)) :
    processLoop initialized events n cb cursor els = (.ok 0, els, []) := by
  rw [processLoop.eq_def]
  simp only [dif_neg h]

/-- Unfolding: one iteration of the pure partition loop. -/
theorem partitionLoop_step {events : List AUParameterEvent} {n cursor : Nat}
    (h : cursor < n ∧ n < u32Mod) :
    partitionLoop events n cursor =
      (cursor, findEndFrame events cursor n - cursor) ::
        partitionLoop events n (findEndFrame events cursor n) := by
  rw [partitionLoop.eq_def]
  simp only [dif_pos h]

/-- Unfolding: the pure partition loop at the end of the block. -/
theorem partitionLoop_done {events : List AUParameterEvent} {n cursor : Nat}
    (h : ¬ (cursor < n ∧ n < u32Mod)) : partitionLoop events n cursor = [] := by
  rw [partitionLoop.eq_def]
  simp only [dif_neg h]

/-- Every run of the slice loop invokes the callback at most `n - cursor`
times, and every traced slice is non-empty, starts at or after the cursor,
and ends within the block. -/
theorem processLoop_trace_bounds (initialized : Bool) (events : List AUParameterEvent)
    (n : Nat) (cb : Nat → Nat → Nat → Int) :
    ∀ (cursor : Nat) (els : AUElements),
      (processLoop initialized events n cb cursor els).2.2.length ≤ n - cursor ∧
      ∀ s ∈ (processLoop initialized events n cb cursor els).2.2,
        cursor ≤ s.startFrame ∧ 0 < s.frames ∧ s.startFrame + s.frames ≤ n := by
  intro cursor els
  induction cursor, els using processLoop.induct initialized events n cb with
  | case1 cursor els h e he ap err herr =>
      have hb : cursor < findEndFrame events cursor n ∧
          findEndFrame events cursor n ≤ n := he
      rw [processLoop_step_error h herr]
      exact ⟨by simp, by simp⟩
  | case2 cursor els h e he ap a hok r hr =>
      have hb : cursor < findEndFrame events cursor n ∧
          findEndFrame events cursor n ≤ n := he
      have hr' : cb cursor (findEndFrame events cursor n - cursor) n ≠ 0 := hr
      cases a
      rw [processLoop_step_fail h hok hr']
      refine ⟨by rw [List.length_singleton]; omega, ?_⟩
      intro s hs
      simp only [List.mem_singleton] at hs
      subst hs
      refine ⟨le_refl _, ?_, ?_⟩ <;> dsimp only <;> omega
  | case3 cursor els h e he ap a hok r hr ih =>
      have hb : cursor < findEndFrame events cursor n ∧
          findEndFrame events cursor n ≤ n := he
      cases a
      rw [Classical.not_not] at hr
      have hr' : cb cursor (findEndFrame events cursor n - cursor) n = 0 := hr
      rw [processLoop_step_cont h hok hr']
      have ih' : (processLoop initialized events n cb (findEndFrame events cursor n)
          (applyEventsToElements initialized cursor (findEndFrame events cursor n)
            events els).2).2.2.length ≤ n - findEndFrame events cursor n ∧
          ∀ s ∈ (processLoop initialized events n cb (findEndFrame events cursor n)
            (applyEventsToElements initialized cursor (findEndFrame events cursor n)
              events els).2).2.2,
            findEndFrame events cursor n ≤ s.startFrame ∧ 0 < s.frames ∧
              s.startFrame + s.frames ≤ n := ih
      obtain ⟨ihl, ihm⟩ := ih' 
      constructor
      · simp only [List.length_cons]
        omega
      · intro s hs
        simp only [List.mem_cons] at hs
        rcases hs with hs | hs
        · subst hs
          refine ⟨le_refl _, ?_, ?_⟩ <;> dsimp only <;> omega
        · obtain ⟨h1, h2, h3⟩ := ihm s hs
          exact ⟨by omega, h2, h3⟩
  | case4 cursor els h =>
      rw [processLoop_done h]
      exact ⟨by simp, by simp⟩

/-- C10: `ProcessForScheduledParams` always terminates (the model is a
total function): for every frame count, event list (offsets at the cursor,
beyond the block, or negative ramp starts included) and element table, each
produced slice is non-empty and ends within the block — so the remaining
frame count strictly decreases — and the slice callback is invoked at most
`n` times. -/
theorem processForScheduledParams_terminates (initialized : Bool)
    (events : List AUParameterEvent) (n : Nat) (cb : Nat → Nat → Nat → Int)
    (els : AUElements) :
    (processForScheduledParams initialized events n cb els).2.2.length ≤ n ∧
    ∀ s ∈ (processForScheduledParams initialized events n cb els).2.2,
      0 < s.frames ∧ s.startFrame + s.frames ≤ n := by
  unfold processForScheduledParams
  obtain ⟨h1, h2⟩ := processLoop_trace_bounds initialized
    (events.mergeSort fun a b => eventStartOffset a ≤ eventStartOffset b) n cb 0 els
  exact ⟨by omega, fun s hs => ⟨(h2 s hs).2.1, (h2 s hs).2.2⟩⟩

/-- When the slice loop returns a non-zero result code (without a thrown
exception), the trace of callback invocations is a strict prefix-by-slices
of the full partition, every callback before the last returned `noErr`, and
the last invocation returned exactly the propagated code. -/
theorem processLoop_cb_failure (initialized : Bool) (events : List AUParameterEvent)
    (n : Nat) (cb : Nat → Nat → Nat → Int) :
    ∀ (cursor : Nat) (els : AUElements) (r : Int), r ≠ 0 →
      (processLoop initialized events n cb cursor els).1 = .ok r →
      (processLoop initialized events n cb cursor els).2.2 ≠ [] ∧
      ((processLoop initialized events n cb cursor els).2.2.map
          fun s => (s.startFrame, s.frames)) =
        (partitionLoop events n cursor).take
          (processLoop initialized events n cb cursor els).2.2.length ∧
      (∀ s ∈ (processLoop initialized events n cb cursor els).2.2.dropLast,
        cb s.startFrame s.frames n = 0) ∧
      (∀ slast, (processLoop initialized events n cb cursor els).2.2.getLast?
          = some slast → cb slast.startFrame slast.frames n = r) := by
  intro cursor els
  induction cursor, els using processLoop.induct initialized events n cb with
  | case1 cursor els h e he ap err herr =>
      intro r hr0 hres
      rw [processLoop_step_error h herr] at hres
      cases hres
  | case2 cursor els h e he ap a hok r hr =>
      intro r0 hr0 hres
      have hr' : cb cursor (findEndFrame events cursor n - cursor) n ≠ 0 := hr
      cases a
      rw [processLoop_step_fail h hok hr'] at hres ⊢
      simp only [Except.ok.injEq] at hres
      refine ⟨by simp, ?_, by simp, ?_⟩
      · rw [partitionLoop_step h]
        simp
      · intro slast hlast
        simp only [List.getLast?_singleton, Option.some.injEq] at hlast
        subst hlast
        exact hres
  | case3 cursor els h e he ap a hok r hr ih =>
      intro r0 hr0 hres
      cases a
      rw [Classical.not_not] at hr
      have hr' : cb cursor (findEndFrame events cursor n - cursor) n = 0 := hr
      rw [processLoop_step_cont h hok hr'] at hres ⊢
      have ih' : ∀ r1 : Int, r1 ≠ 0 →
          (processLoop initialized events n cb (findEndFrame events cursor n)
            (applyEventsToElements initialized cursor (findEndFrame events cursor n)
              events els).2).1 = .ok r1 →
          (processLoop initialized events n cb (findEndFrame events cursor n)
            (applyEventsToElements initialized cursor (findEndFrame events cursor n)
              events els).2).2.2 ≠ [] ∧
          ((processLoop initialized events n cb (findEndFrame events cursor n)
            (applyEventsToElements initialized cursor (findEndFrame events cursor n)
              events els).2).2.2.map fun s => (s.startFrame, s.frames)) =
            (partitionLoop events n (findEndFrame events cursor n)).take
              (processLoop initialized events n cb (findEndFrame events cursor n)
                (applyEventsToElements initialized cursor (findEndFrame events cursor n)
                  events els).2).2.2.length ∧
          (∀ s ∈ (processLoop initialized events n cb (findEndFrame events cursor n)
            (applyEventsToElements initialized cursor (findEndFrame events cursor n)
              events els).2).2.2.dropLast, cb s.startFrame s.frames n = 0) ∧
          (∀ slast, (processLoop initialized events n cb (findEndFrame events cursor n)
            (applyEventsToElements initialized cursor (findEndFrame events cursor n)
              events els).2).2.2.getLast? = some slast →
            cb slast.startFrame slast.frames n = r1) := ih
      obtain ⟨ihne, ihmap, ihdrop, ihlast⟩ := ih' r0 hr0 hres
      refine ⟨by simp, ?_, ?_, ?_⟩
      · rw [partitionLoop_step h]
        simp only [List.map_cons, List.length_cons, List.take_succ_cons]
        rw [ihmap]
      · intro s hs
        rw [List.dropLast_cons_of_ne_nil ihne] at hs
        rcases List.mem_cons.mp hs with hs | hs
        · subst hs
          exact hr'
        · exact ihdrop s hs
      · intro slast hlast
        obtain ⟨y, ys, hys⟩ := List.exists_cons_of_ne_nil ihne
        rw [hys] at hlast
        rw [List.getLast?_cons_cons] at hlast
        exact ihlast slast (by rw [hys]; exact hlast)
  | case4 cursor els h =>
      intro r hr0 hres
      rw [processLoop_done h] at hres
      simp only [Except.ok.injEq] at hres
      exact absurd hres.symm hr0

/-- C9: if the per-slice processing callback fails on some slice,
`ProcessForScheduledParams` invokes the callback on no later slice — the
invocation trace is the corresponding prefix of the slice partition, every
earlier invocation returned `noErr`, and the last one returned the failing
code — and the function returns that same failure code. -/
theorem processForScheduledParams_cb_failure_stops (initialized : Bool)
    (events : List AUParameterEvent) (n : Nat) (cb : Nat → Nat → Nat → Int)
    (els : AUElements) (r : Int) (hr0 : r ≠ 0)
    (hres : (processForScheduledParams initialized events n cb els).1 = .ok r) :
    (processForScheduledParams initialized events n cb els).2.2 ≠ [] ∧
    ((processForScheduledParams initialized events n cb els).2.2.map
        fun s => (s.startFrame, s.frames)) =
      (partitionSlices events n).take
        (processForScheduledParams initialized events n cb els).2.2.length ∧
    (∀ s ∈ (processForScheduledParams initialized events n cb els).2.2.dropLast,
      cb s.startFrame s.frames n = 0) ∧
    (∀ slast, (processForScheduledParams initialized events n cb els).2.2.getLast?
        = some slast → cb slast.startFrame slast.frames n = r) :=
  processLoop_cb_failure initialized
    (events.mergeSort fun a b => eventStartOffset a ≤ eventStartOffset b) n cb 0 els
    r hr0 hres

/-- C9 witness: no events, one frame, a callback that always fails with
code 5: the function returns 5 after exactly one invocation. -/
theorem processForScheduledParams_cb_failure_stops_witness :
    (processForScheduledParams false [] 1 (fun _ _ _ => 5) ([] : AUElements)).1
      = .ok 5 ∧
    ((processForScheduledParams false [] 1 (fun _ _ _ => 5) ([] : AUElements)).2.2
        ≠ [] ∧
      ((processForScheduledParams false [] 1 (fun _ _ _ => 5)
          ([] : AUElements)).2.2.map fun s => (s.startFrame, s.frames)) =
        (partitionSlices [] 1).take
          (processForScheduledParams false [] 1 (fun _ _ _ => 5)
            ([] : AUElements)).2.2.length ∧
      (∀ s ∈ (processForScheduledParams false [] 1 (fun _ _ _ => 5)
          ([] : AUElements)).2.2.dropLast, (fun _ _ _ => (5 : Int)) s.startFrame s.frames 1 = 0) ∧
      (∀ slast, (processForScheduledParams false [] 1 (fun _ _ _ => 5)
          ([] : AUElements)).2.2.getLast? = some slast →
        (fun _ _ _ => (5 : Int)) slast.startFrame slast.frames 1 = 5)) := by
  have hres : (processForScheduledParams false [] 1 (fun _ _ _ => 5)
      ([] : AUElements)).1 = .ok 5 := by
    unfold processForScheduledParams
    rw [List.mergeSort_nil,
      processLoop_step_fail (by constructor <;> decide) (by rfl) (by decide)]
  exact ⟨hres, processForScheduledParams_cb_failure_stops false [] 1 _ [] 5
    (by decide) hres⟩

/-- Folding `min` preserves a lower bound of the list and the base. -/
theorem le_foldr_min : ∀ (l : List Int) (b x : Int),
    (∀ y ∈ l, x ≤ y) → x ≤ b → x ≤ l.foldr min b := by
  intro l
  induction l with
  | nil =>
      intro b x _ hb
      simpa using hb
  | cons c rest ih =>
      intro b x hl hb
      simp only [List.foldr_cons]
      have h1 := hl c (by simp)
      have h2 := ih b x (fun y hy => hl y (List.mem_cons_of_mem _ hy)) hb
      omega

/-- Folding `min` over a list containing its own lower bound `x` (with base
at least `x`) yields exactly `x`. -/
theorem foldr_min_eq_of_mem : ∀ (l : List Int) (b x : Int), x ∈ l →
    (∀ y ∈ l, x ≤ y) → x ≤ b → l.foldr min b = x := by
  intro l
  induction l with
  | nil =>
      intro b x hmem _ _
      cases hmem
  | cons c rest ih =>
      intro b x hmem hl hb
      simp only [List.foldr_cons]
      rcases List.mem_cons.mp hmem with h | h
      · have hxc : x = c := h
        have h1 := le_foldr_min rest b x
          (fun y hy => hl y (List.mem_cons_of_mem _ hy)) hb
        omega
      · have hc := hl c (by simp)
        have h1 := ih b x h (fun y hy => hl y (List.mem_cons_of_mem _ hy)) hb
        omega

/-- Narrowing the window: a fresh bound `a ≤ b` taken into the `min` equals
folding over the window narrowed from `b` to `a`. -/
theorem foldr_min_window_shrink (l : List Int) (lo a b : Int) (hab : a ≤ b) :
    min a ((l.filter fun c => decide (lo < c ∧ c < b)).foldr min b) =
    (l.filter fun c => decide (lo < c ∧ c < a)).foldr min a := by
  induction l with
  | nil => simpa using min_eq_left hab
  | cons c rest ih =>
      simp only [List.filter_cons]
      by_cases h1 : lo < c
      · by_cases h2 : c < a
        · rw [if_pos (by simp [h1]; omega), if_pos (by simp [h1, h2])]
          simp only [List.foldr_cons]
          omega
        · by_cases h3 : c < b
          · rw [if_pos (by simp [h1, h3]), if_neg (by simp; omega)]
            simp only [List.foldr_cons]
            omega
          · rw [if_neg (by simp; omega), if_neg (by simp; omega)]
            exact ih
      · rw [if_neg (by simp [h1]), if_neg (by simp [h1])]
        exact ih

/-- Casting back to `UInt32` and to `ℤ` is the identity inside the 32-bit
range. -/
theorem toUInt32_coe {i : Int} (h0 : 0 ≤ i) (h : i < (u32Mod : Int)) :
    ((toUInt32 i : Nat) : Int) = i := by
  unfold toUInt32 u32Mod at *
  omega

/-- Every candidate boundary of an event is at least the event's sort key
(its start offset as the source computes it), except immediate offsets of
at least `2^31`, which exceed every in-window value. -/
theorem eventCandidates_lb (ev : AUParameterEvent) (c : Int)
    (hc : c ∈ eventCandidates ev) :
    eventStartOffset ev ≤ c ∨ ((i32Half : Nat) : Int) ≤ c := by
  rcases hev : ev.eventValues with i | r
  · simp only [eventCandidates, hev, List.mem_singleton] at hc
    subst hc
    by_cases h : i.bufferOffset < i32Half
    · left
      simp [eventStartOffset, hev, toSInt32_of_lt h]
    · right
      exact_mod_cast Nat.le_of_not_lt h
  · simp only [eventCandidates, hev, List.mem_cons, List.mem_singleton,
      List.not_mem_nil, or_false] at hc
    rcases hc with hc | hc <;> subst hc
    · left
      simp [eventStartOffset, hev]
    · left
      simp only [eventStartOffset, hev]
      omega

/-- Every candidate of a list of events, restricted to a window below
`2^31`, is at least any common lower bound `s` of the events' start
offsets. -/
theorem specCands_filter_lb (l : List AUParameterEvent) (s : Int) (cursor cur : Nat)
    (hcur : cur ≤ i32Half) (hev : ∀ ev' ∈ l, s ≤ eventStartOffset ev') :
    ∀ y ∈ (specCandidates l).filter
        (fun c => decide ((cursor : Int) < c ∧ c < (cur : Int))), s ≤ y := by
  intro y hy
  rw [List.mem_filter, decide_eq_true_eq] at hy
  obtain ⟨hymem, hycond⟩ := hy
  rw [specCandidates, List.mem_flatMap] at hymem
  obtain ⟨ev', hev', hc⟩ := hymem
  rcases eventCandidates_lb ev' y hc with h | h
  · exact le_trans (hev ev' hev') h
  · exfalso
    have hcast : (cur : Int) ≤ ((i32Half : Nat) : Int) := by exact_mod_cast hcur
    omega

/-- The boundary scan of `ProcessForScheduledParams`, on an event list
sorted by start offset whose ramp durations are below `2^31` and whose
immediate offsets are `UInt32` values, computes exactly the specification's
minimum candidate boundary of the window `(cursor, cur)` with default
`cur`, for `cursor < cur < 2^31`. -/
theorem findEndFrameGo_eq_specMin (cursor : Nat) :
    ∀ (l : List AUParameterEvent) (cur : Nat),
      l.Pairwise (fun a b => eventStartOffset a ≤ eventStartOffset b) →
      (∀ ev ∈ l, ∀ r, ev.eventValues = .ramp r → r.durationInFrames < i32Half) →
      OffsetsInUInt32 l →
      cursor < cur → cur < i32Half →
      ((findEndFrameGo cursor l cur : Nat) : Int) =
        ((specCandidates l).filter fun c =>
          decide ((cursor : Int) < c ∧ c < (cur : Int))).foldr min (cur : Int) := by
  intro l
  induction l with
  | nil =>
      intro cur _ _ _ _ _
      simp [findEndFrameGo, specCandidates]
  | cons ev rest ih =>
      intro cur hsort hdur hoff hlt hcur
      obtain ⟨hp1, hp2⟩ := List.pairwise_cons.mp hsort
      have hdrest : ∀ ev' ∈ rest, ∀ r, ev'.eventValues = .ramp r →
          r.durationInFrames < i32Half := fun ev' h' => hdur ev' (by simp [h'])
      have horest : OffsetsInUInt32 rest := fun ev' h' => hoff ev' (by simp [h'])
      have hcursor31 : cursor < i32Half := lt_trans hlt hcur
      have hcastc : toSInt32 cursor = (cursor : Int) := toSInt32_of_lt hcursor31
      have hcastu : toSInt32 cur = (cur : Int) := toSInt32_of_lt hcur
      have hhalf : ((i32Half : Nat) : Int) = 2147483648 := by norm_num [i32Half]
      have hmod : ((u32Mod : Nat) : Int) = 4294967296 := by norm_num [u32Mod]
      rcases hev : ev.eventValues with i | r
      · -- immediate event
        have hu32 : i.bufferOffset < u32Mod := hoff ev (by simp) i hev
        have hcands : specCandidates (ev :: rest) =
            (i.bufferOffset : Int) :: specCandidates rest := by
          simp [specCandidates, eventCandidates, hev]
        have hso : eventStartOffset ev = toSInt32 i.bufferOffset := by
          simp [eventStartOffset, hev]
        simp only [findEndFrameGo, hev]
        by_cases hbr : toSInt32 i.bufferOffset > toSInt32 cursor ∧
            toSInt32 i.bufferOffset < toSInt32 cur
        · rw [if_pos hbr]
          rw [hcastc, hcastu] at hbr
          have hu31 : i.bufferOffset < i32Half := by
            by_contra hge
            have hneg : toSInt32 i.bufferOffset =
                (i.bufferOffset : Int) - (u32Mod : Int) := by
              unfold toSInt32
              rw [if_neg hge]
            rw [hneg] at hbr
            have : (i.bufferOffset : Int) < (u32Mod : Int) := by exact_mod_cast hu32
            omega
          rw [toSInt32_of_lt hu31] at hbr ⊢
          rw [toUInt32_coe (by omega) (by exact_mod_cast hu32)]
          refine (foldr_min_eq_of_mem _ _ _ ?_ ?_ (by omega)).symm
          · rw [List.mem_filter, decide_eq_true_eq]
            exact ⟨by rw [hcands]; simp, by omega⟩
          · have heq : eventStartOffset ev = (i.bufferOffset : Int) := by
              rw [hso, toSInt32_of_lt hu31]
            refine specCands_filter_lb (ev :: rest) _ cursor cur (le_of_lt hcur) ?_
            intro ev' hev'
            rcases List.mem_cons.mp hev' with h | h
            · subst h
              exact le_of_eq heq.symm
            · exact le_trans (le_of_eq heq.symm) (hp1 ev' h)
        · rw [if_neg hbr]
          rw [ih cur hp2 hdrest horest hlt hcur, hcands, List.filter_cons,
            if_neg (by
              rw [decide_eq_true_eq]
              rintro ⟨hw1, hw2⟩
              by_cases hu31 : i.bufferOffset < i32Half
              · exact hbr (by rw [hcastc, hcastu, toSInt32_of_lt hu31]; exact ⟨hw1, hw2⟩)
              · have : ((i32Half : Nat) : Int) ≤ (i.bufferOffset : Int) := by
                  exact_mod_cast Nat.le_of_not_lt hu31
                have hcc : (cur : Int) ≤ ((i32Half : Nat) : Int) := by
                  exact_mod_cast le_of_lt hcur
                omega)]
      · -- ramped event
        have hdurev : r.durationInFrames < i32Half := hdur ev (by simp) r hev
        have hcastd : toSInt32 r.durationInFrames = (r.durationInFrames : Int) :=
          toSInt32_of_lt hdurev
        have hcands : specCandidates (ev :: rest) = r.startBufferOffset ::
            (r.startBufferOffset + (r.durationInFrames : Int)) ::
            specCandidates rest := by
          simp [specCandidates, eventCandidates, hev]
        have hso : eventStartOffset ev = r.startBufferOffset := by
          simp [eventStartOffset, hev]
        simp only [findEndFrameGo, hev]
        by_cases hbr : r.startBufferOffset > toSInt32 cursor ∧
            r.startBufferOffset < toSInt32 cur
        · rw [if_pos hbr]
          rw [hcastc, hcastu] at hbr
          rw [toUInt32_coe (by omega) (by
            have : (cur : Int) < ((i32Half : Nat) : Int) := by exact_mod_cast hcur
            omega)]
          refine (foldr_min_eq_of_mem _ _ _ ?_ ?_ (by omega)).symm
          · rw [List.mem_filter, decide_eq_true_eq]
            exact ⟨by rw [hcands]; simp, by omega⟩
          · refine specCands_filter_lb (ev :: rest) _ cursor cur (le_of_lt hcur) ?_
            intro ev' hev'
            rcases List.mem_cons.mp hev' with h | h
            · subst h
              exact le_of_eq hso.symm
            · exact le_trans (le_of_eq hso.symm) (hp1 ev' h)
        · rw [if_neg hbr]
          rw [hcastc, hcastu] at hbr
          by_cases hoff2 : r.startBufferOffset + toSInt32 r.durationInFrames >
              toSInt32 cursor ∧
              r.startBufferOffset + toSInt32 r.durationInFrames < toSInt32 cur
          · rw [if_pos hoff2]
            rw [hcastc, hcastu, hcastd] at hoff2
            have hm : ((toUInt32 (r.startBufferOffset + toSInt32 r.durationInFrames) :
                Nat) : Int) = r.startBufferOffset + (r.durationInFrames : Int) := by
              rw [hcastd]
              refine toUInt32_coe (by omega) (by
                have : (cur : Int) < ((i32Half : Nat) : Int) := by exact_mod_cast hcur
                omega)
            have hmlt1 : cursor <
                toUInt32 (r.startBufferOffset + toSInt32 r.durationInFrames) := by
              have := hm
              omega
            have hmlt2 : toUInt32 (r.startBufferOffset + toSInt32 r.durationInFrames)
                < i32Half := by
              have h1 := hm
              have h2 : (cur : Int) < ((i32Half : Nat) : Int) := by exact_mod_cast hcur
              omega
            rw [ih (toUInt32 (r.startBufferOffset + toSInt32 r.durationInFrames))
              hp2 hdrest horest hmlt1 hmlt2]
            rw [hm]
            rw [hcands, List.filter_cons, if_neg (by
                rw [decide_eq_true_eq]
                exact fun hw => hbr ⟨hw.1, hw.2⟩),
              List.filter_cons, if_pos (by
                rw [decide_eq_true_eq]
                exact ⟨by omega, by omega⟩)]
            simp only [List.foldr_cons]
            exact (foldr_min_window_shrink (specCandidates rest) cursor
              (r.startBufferOffset + (r.durationInFrames : Int)) cur (by omega)).symm
          · rw [if_neg hoff2]
            rw [hcastc, hcastu, hcastd] at hoff2
            rw [ih cur hp2 hdrest horest hlt hcur, hcands, List.filter_cons,
              if_neg (by
                rw [decide_eq_true_eq]
                exact fun hw => hbr ⟨hw.1, hw.2⟩),
              List.filter_cons, if_neg (by
                rw [decide_eq_true_eq]
                exact fun hw => hoff2 ⟨hw.1, hw.2⟩)]

/-- `findEndFrame` on a sorted, well-formed event list computes the
specification's minimum boundary of `(cursor, n)`. -/
theorem findEndFrame_eq_specMin (l : List AUParameterEvent) {cursor n : Nat}
    (hsort : l.Pairwise (fun a b => eventStartOffset a ≤ eventStartOffset b))
    (hdur : ∀ ev ∈ l, ∀ r, ev.eventValues = .ramp r → r.durationInFrames < i32Half)
    (hoffs : OffsetsInUInt32 l) (hlt : cursor < n) (hn : n < i32Half) :
    ((findEndFrame l cursor n : Nat) : Int) = specMinBoundary l cursor n := by
  unfold findEndFrame specMinBoundary
  exact findEndFrameGo_eq_specMin cursor l n hsort hdur hoffs hlt hn

/-- The specification's minimum boundary only depends on the multiset of
events — in particular it is invariant under the sort. -/
theorem specMinBoundary_perm {l l' : List AUParameterEvent} (hp : l.Perm l')
    (cursor n : Nat) : specMinBoundary l cursor n = specMinBoundary l' cursor n := by
  unfold specMinBoundary specCandidates
  haveI : LeftCommutative (min : Int → Int → Int) :=
    ⟨fun a b c => min_left_comm a b c⟩
  exact ((List.Perm.flatMap_right eventCandidates hp).filter _).foldr_eq _

/-- The sort of `ProcessForScheduledParams` produces a list that is pairwise
ordered by start offset. -/
theorem mergeSort_events_sorted (l : List AUParameterEvent) :
    (l.mergeSort fun a b => eventStartOffset a ≤ eventStartOffset b).Pairwise
      (fun a b => eventStartOffset a ≤ eventStartOffset b) := by
  have h := @List.sorted_mergeSort AUParameterEvent
    (fun a b => decide (eventStartOffset a ≤ eventStartOffset b))
    (fun a b c hab hbc => by
      rw [decide_eq_true_eq] at hab hbc ⊢
      exact le_trans hab hbc)
    (fun a b => by
      rw [Bool.or_eq_true, decide_eq_true_eq, decide_eq_true_eq]
      exact le_total (eventStartOffset a) (eventStartOffset b))
    l
  exact h.imp fun hab => of_decide_eq_true hab

/-- The partition computed by the slice loop from any cursor position is a
consecutive cover of `[cursor, n)` whose every slice ends at the
specification's minimum boundary. -/
theorem partitionLoop_spec (l : List AUParameterEvent) (n : Nat)
    (hsort : l.Pairwise (fun a b => eventStartOffset a ≤ eventStartOffset b))
    (hdur : ∀ ev ∈ l, ∀ r, ev.eventValues = .ramp r → r.durationInFrames < i32Half)
    (hoffs : OffsetsInUInt32 l) (hn : n < i32Half) :
    ∀ cursor, cursor ≤ n →
      ChainFrom n cursor (partitionLoop l n cursor) ∧
      ∀ p ∈ partitionLoop l n cursor,
        ((p.1 + p.2 : Nat) : Int) = specMinBoundary l p.1 n := by
  intro cursor
  induction cursor using partitionLoop.induct l n with
  | case1 x h e he ihm =>
      intro hle
      have hb : x < findEndFrame l x n ∧ findEndFrame l x n ≤ n := he
      have ih' : ChainFrom n (findEndFrame l x n)
            (partitionLoop l n (findEndFrame l x n)) ∧
          ∀ p ∈ partitionLoop l n (findEndFrame l x n),
            ((p.1 + p.2 : Nat) : Int) = specMinBoundary l p.1 n := ihm hb.2
      rw [partitionLoop_step h]
      obtain ⟨ihc, ihmem⟩ := ih'
      have hxe : x + (findEndFrame l x n - x) = findEndFrame l x n := by omega
      constructor
      · refine ⟨rfl, by omega, ?_⟩
        rw [hxe]
        exact ihc
      · intro p hp
        rcases List.mem_cons.mp hp with hp | hp
        · subst hp
          simp only
          rw [hxe]
          exact findEndFrame_eq_specMin l hsort hdur hoffs h.1 hn
        · exact ihmem p hp
  | case2 x h =>
      intro hle
      rw [partitionLoop_done h]
      refine ⟨?_, by simp⟩
      show x = n
      have hnu : n < u32Mod := by
        unfold i32Half u32Mod at *
        omega
      omega

/-- The concrete automation scenario of the specification: two immediate
events for parameter 7 at offsets 0 and 200 in a 512-frame block, one
sparse uninitialized element: two slices, with value 1 in force during
`[0, 200)` and value 2 during `[200, 512)`. -/
theorem scenario_run_eq :
    processForScheduledParams false
      [⟨0, 0, 7, .immediate ⟨1, 0⟩⟩, ⟨0, 0, 7, .immediate ⟨2, 200⟩⟩] 512
      (fun _ _ _ => 0) [((0, 0), ⟨false, [], []⟩)] =
    (.ok 0, [((0, 0), ⟨false, [], [(7, 2)]⟩)],
      [⟨0, 200, [((0, 0), ⟨false, [], [(7, 1)]⟩)]⟩,
       ⟨200, 312, [((0, 0), ⟨false, [], [(7, 2)]⟩)]⟩]) := by
  unfold processForScheduledParams
  rw [List.mergeSort_of_sorted (by decide)]
  rw [@processLoop_step_cont false
    [⟨0, 0, 7, .immediate ⟨1, 0⟩⟩, ⟨0, 0, 7, .immediate ⟨2, 200⟩⟩] 512
    (fun _ _ _ => 0) 0 [((0, 0), ⟨false, [], []⟩)] (by decide) rfl rfl]
  rw [show findEndFrame
    [⟨0, 0, 7, .immediate ⟨1, 0⟩⟩, ⟨0, 0, 7, .immediate ⟨2, 200⟩⟩] 0 512 = 200
    from by decide]
  rw [show (applyEventsToElements false 0 200
      [⟨0, 0, 7, .immediate ⟨1, 0⟩⟩, ⟨0, 0, 7, .immediate ⟨2, 200⟩⟩]
      [((0, 0), ⟨false, [], []⟩)]).2 = [((0, 0), ⟨false, [], [(7, 1)]⟩)]
    from by decide]
  rw [@processLoop_step_cont false
    [⟨0, 0, 7, .immediate ⟨1, 0⟩⟩, ⟨0, 0, 7, .immediate ⟨2, 200⟩⟩] 512
    (fun _ _ _ => 0) 200 [((0, 0), ⟨false, [], [(7, 1)]⟩)] (by decide) rfl rfl]
  rw [show findEndFrame
    [⟨0, 0, 7, .immediate ⟨1, 0⟩⟩, ⟨0, 0, 7, .immediate ⟨2, 200⟩⟩] 200 512 = 512
    from by decide]
  rw [show (applyEventsToElements false 200 512
      [⟨0, 0, 7, .immediate ⟨1, 0⟩⟩, ⟨0, 0, 7, .immediate ⟨2, 200⟩⟩]
      [((0, 0), ⟨false, [], [(7, 1)]⟩)]).2 = [((0, 0), ⟨false, [], [(7, 2)]⟩)]
    from by decide]
  rw [@processLoop_done false
    [⟨0, 0, 7, .immediate ⟨1, 0⟩⟩, ⟨0, 0, 7, .immediate ⟨2, 200⟩⟩] 512
    (fun _ _ _ => 0) 512 [((0, 0), ⟨false, [], [(7, 2)]⟩)] (by decide)]

/-- C1 (amended): for every frame count `0 < N < 2^31` and every event list
whose ramp durations are below `2^31` and whose immediate offsets are
`UInt32` values, `ProcessForScheduledParams` partitions `[0, N)` into
consecutive slices, each ending at the true minimum candidate boundary
(immediate offsets, ramp starts, ramp ends) strictly greater than the
slice's start, defaulting to `N`; the `N = 512` scenario with immediate
events at offsets 0 and 200 produces exactly the slices `[0, 200)` (value 1
in force) and `[200, 512)` (value 2 in force); an empty event list yields
exactly one slice `[0, N)`. -/
theorem processForScheduledParams_partition_spec :
    (∀ (events : List AUParameterEvent) (n : Nat), 0 < n → n < i32Half →
      DurationsBounded events → OffsetsInUInt32 events →
      ChainFrom n 0 (partitionSlices events n) ∧
      ∀ p ∈ partitionSlices events n,
        ((p.1 + p.2 : Nat) : Int) = specMinBoundary events p.1 n) ∧
    (processForScheduledParams false
        [⟨0, 0, 7, .immediate ⟨1, 0⟩⟩, ⟨0, 0, 7, .immediate ⟨2, 200⟩⟩] 512
        (fun _ _ _ => 0) [((0, 0), ⟨false, [], []⟩)] =
      (.ok 0, [((0, 0), ⟨false, [], [(7, 2)]⟩)],
        [⟨0, 200, [((0, 0), ⟨false, [], [(7, 1)]⟩)]⟩,
         ⟨200, 312, [((0, 0), ⟨false, [], [(7, 2)]⟩)]⟩])) ∧
    (∀ n : Nat, 0 < n → n < u32Mod → partitionSlices [] n = [(0, n)]) := by
  refine ⟨?_, scenario_run_eq, ?_⟩
  · intro events n hn0 hn hdur hoffs
    unfold partitionSlices
    have hperm := List.mergeSort_perm events
      (fun a b => eventStartOffset a ≤ eventStartOffset b)
    have hsort := mergeSort_events_sorted events
    have hdur' : ∀ ev ∈ events.mergeSort
        (fun a b => eventStartOffset a ≤ eventStartOffset b), ∀ r,
        ev.eventValues = .ramp r → r.durationInFrames < i32Half :=
      fun ev h => hdur ev (hperm.mem_iff.mp h)
    have hoffs' : OffsetsInUInt32 (events.mergeSort
        (fun a b => eventStartOffset a ≤ eventStartOffset b)) :=
      fun ev h => hoffs ev (hperm.mem_iff.mp h)
    obtain ⟨hc, hm⟩ := partitionLoop_spec _ n hsort hdur' hoffs' hn 0 (by omega)
    refine ⟨hc, ?_⟩
    intro p hp
    rw [← specMinBoundary_perm hperm]
    exact hm p hp
  · intro n h0 hu
    unfold partitionSlices
    rw [List.mergeSort_nil, partitionLoop_step ⟨h0, hu⟩,
      show findEndFrame [] 0 n = n from rfl,
      partitionLoop_done (by omega)]
    simp

/-- C1 witness: the amended partition theorem at the empty event list with
`n = 4`, and the empty-list slice at `n = 7`. -/
theorem processForScheduledParams_partition_spec_witness :
    (ChainFrom 4 0 (partitionSlices [] 4) ∧
      ∀ p ∈ partitionSlices [] 4,
        ((p.1 + p.2 : Nat) : Int) = specMinBoundary [] p.1 4) ∧
    partitionSlices [] 7 = [(0, 7)] :=
  ⟨processForScheduledParams_partition_spec.1 [] 4 (by decide) (by decide)
      (fun ev h => absurd h (List.not_mem_nil ev))
      (fun ev h => absurd h (List.not_mem_nil ev)),
   processForScheduledParams_partition_spec.2.2 7 (by decide) (by decide)⟩

/-- C1 counterexample: the slice boundaries do not always equal the
specification's candidate boundaries.  (a) A ramped event with
`startBufferOffset = 2^31 − 5` and `durationInFrames = 2^31 + 10` (a
`UInt32` value) in a 512-frame block: the 32-bit cast of the duration makes
the code see a ramp end at frame 5, so it produces slices `[0,5), [5,512)`,
while the claim's candidates (`start`, `start + duration` as integers) give
no boundary inside `(0, 512)`, so the claim requires the single slice
`[0, 512)`.  (b) An immediate event at offset 50 with frame count
`N = 2^31 + 100`: the signed cast of `N` is negative, so the code never
shrinks the slice and produces `[0, N)`, while the claim's minimum boundary
above cursor 0 is 50. -/
theorem processForScheduledParams_partition_counterexample :
    (partitionSlices [⟨0, 0, 7, .ramp ⟨2147483643, 2147483658, 0, 0⟩⟩] 512 =
        [(0, 5), (5, 507)] ∧
      specMinBoundary [⟨0, 0, 7, .ramp ⟨2147483643, 2147483658, 0, 0⟩⟩] 0 512 = 512 ∧
      ¬ ((0 + 5 : Nat) : Int) =
        specMinBoundary [⟨0, 0, 7, .ramp ⟨2147483643, 2147483658, 0, 0⟩⟩] 0 512) ∧
    (partitionSlices [⟨0, 0, 7, .immediate ⟨1, 50⟩⟩] 2147483748 =
        [(0, 2147483748)] ∧
      specMinBoundary [⟨0, 0, 7, .immediate ⟨1, 50⟩⟩] 0 2147483748 = 50 ∧
      ¬ ((0 + 2147483748 : Nat) : Int) =
        specMinBoundary [⟨0, 0, 7, .immediate ⟨1, 50⟩⟩] 0 2147483748) := by
  have hA : partitionSlices [⟨0, 0, 7, .ramp ⟨2147483643, 2147483658, 0, 0⟩⟩] 512 =
      [(0, 5), (5, 507)] := by
    unfold partitionSlices
    rw [List.mergeSort_singleton,
      @partitionLoop_step [⟨0, 0, 7, .ramp ⟨2147483643, 2147483658, 0, 0⟩⟩] 512 0
        (by decide),
      show findEndFrame [⟨0, 0, 7, .ramp ⟨2147483643, 2147483658, 0, 0⟩⟩] 0 512 = 5
        from by decide,
      @partitionLoop_step [⟨0, 0, 7, .ramp ⟨2147483643, 2147483658, 0, 0⟩⟩] 512 5
        (by decide),
      show findEndFrame [⟨0, 0, 7, .ramp ⟨2147483643, 2147483658, 0, 0⟩⟩] 5 512 = 512
        from by decide,
      @partitionLoop_done [⟨0, 0, 7, .ramp ⟨2147483643, 2147483658, 0, 0⟩⟩] 512 512
        (by decide)]
  have hB : partitionSlices [⟨0, 0, 7, .immediate ⟨1, 50⟩⟩] 2147483748 =
      [(0, 2147483748)] := by
    unfold partitionSlices
    rw [List.mergeSort_singleton,
      @partitionLoop_step [⟨0, 0, 7, .immediate ⟨1, 50⟩⟩] 2147483748 0 (by decide),
      show findEndFrame [⟨0, 0, 7, .immediate ⟨1, 50⟩⟩] 0 2147483748 = 2147483748
        from by decide,
      @partitionLoop_done [⟨0, 0, 7, .immediate ⟨1, 50⟩⟩] 2147483748 2147483748
        (by decide)]
  exact ⟨⟨hA, by decide, by decide⟩, ⟨hB, by decide, by decide⟩⟩

end AUSDK
